import Mathlib

/-!
Verification of the deterministic booking engine (`BookingManager` in
`src/execution/booking_manager.py`) of the appointment-booking assistant.

The Python code is shallowly embedded: the booking store is a `List Booking`,
datetimes are a `DateTime` structure of calendar/clock fields, machine side
effects (the JSON file rewrite) are dropped since a mutation both updates the
in-memory list and rewrites the file with the same contents, and exceptions
are `Except BErr`.  `datetime.now()` is threaded as an explicit `now : String`
argument (the code stores `datetime.now().isoformat()` verbatim and never
parses it back).

String handling is modelled at the character-list level: Python's `f"{n:04d}"`
zero padding, `strftime` rendering and the two accepted parse formats
(`datetime.fromisoformat` restricted to `YYYY-MM-DD{T| }HH:MM[:SS]` without a
timezone suffix, and `datetime.strptime` with `"%Y-%m-%d %H:%M"` /
`"%Y-%m-%d"` / `"%H:%M"`) are implemented on `List Char` directly.
-/

namespace BookingSpec

/-! ### Decimal rendering: Python `str(n)` and zero-padded `f"{n:0wd}"` -/

/-- The character of a single decimal digit (`0 ↦ '0'`, ..., `9 ↦ '9'`). -/
def digitChar (d : Nat) : Char := Char.ofNat (48 + d)

/-- Decimal digit characters of `n`, most significant first, by repeated
division.  `fuel`-structured so that the kernel can evaluate it; `fuel ≥ n`
makes the fuel irrelevant (`decAux_fuel`). -/
def decAux : Nat → Nat → List Char
  | _, 0 => []
  | 0, _ + 1 => []
  | fuel + 1, n + 1 => decAux fuel ((n + 1) / 10) ++ [digitChar ((n + 1) % 10)]

/-- Decimal representation of `n` as characters, i.e. Python `str(n)`. -/
def decChars (n : Nat) : List Char := if n = 0 then ['0'] else decAux n n

/-- Left-pad a character list with `'0'` up to width `w`. -/
def padLeft (w : Nat) (l : List Char) : List Char :=
  List.replicate (w - l.length) '0' ++ l

/-- Python `f"{n:0wd}"`: decimal of `n`, zero-padded on the left to width `w`. -/
def pad (w n : Nat) : String := ⟨padLeft w (decChars n)⟩

/-- Recover a natural number from decimal digit characters (digit fold). -/
def recoverNat (l : List Char) : Nat :=
  l.foldl (fun a c => a * 10 + (c.toNat - 48)) 0

theorem decAux_zero (f : Nat) : decAux f 0 = [] := by cases f <;> rfl

theorem decAux_fuel : ∀ f f' n, n ≤ f → n ≤ f' → decAux f n = decAux f' n := by
  intro f
  induction f with
  | zero =>
    intro f' n hf _hf'
    interval_cases n
    simp [decAux_zero]
  | succ f ih =>
    intro f' n hf hf'
    match n, f' with
    | 0, f' => simp [decAux_zero]
    | n + 1, 0 => omega
    | n + 1, f' + 1 =>
      show decAux f ((n + 1) / 10) ++ _ = decAux f' ((n + 1) / 10) ++ _
      have h10 : (n + 1) / 10 ≤ n := by omega
      rw [ih f' ((n + 1) / 10) (by omega) (by omega)]

theorem decChars_lt10 (n : Nat) (h1 : 1 ≤ n) (h2 : n < 10) :
    decChars n = [digitChar n] := by
  match n, h1 with
  | n + 1, _ =>
    show decAux (n + 1) (n + 1) = _
    show decAux n ((n + 1) / 10) ++ [digitChar ((n + 1) % 10)] = _
    have hd : (n + 1) / 10 = 0 := by omega
    have hm : (n + 1) % 10 = n + 1 := by omega
    rw [hd, hm, decAux_zero]
    rfl

theorem decChars_ge10 (n : Nat) (h : 10 ≤ n) :
    decChars n = decChars (n / 10) ++ [digitChar (n % 10)] := by
  match n, h with
  | n + 1, h =>
    show decAux (n + 1) (n + 1) = _
    show decAux n ((n + 1) / 10) ++ [digitChar ((n + 1) % 10)] = _
    have hpos : (n + 1) / 10 ≠ 0 := by omega
    have : decChars ((n + 1) / 10) = decAux n ((n + 1) / 10) := by
      show (if (n + 1) / 10 = 0 then _ else decAux ((n + 1) / 10) ((n + 1) / 10)) = _
      rw [if_neg hpos]
      exact decAux_fuel _ _ _ (Nat.le_refl _) (by omega)
    rw [this]

theorem digitChar_toNat : ∀ r, r < 10 → (digitChar r).toNat - 48 = r := by decide

theorem recoverNat_decAux :
    ∀ f n acc, n ≤ f →
      (decAux f n).foldl (fun a c => a * 10 + (c.toNat - 48)) acc =
        acc * 10 ^ (decAux f n).length + n := by
  intro f
  induction f with
  | zero =>
    intro n acc hf
    interval_cases n
    simp [decAux_zero]
  | succ f ih =>
    intro n acc hf
    match n with
    | 0 => simp [decAux_zero]
    | n + 1 =>
      simp only [decAux, List.foldl_append, List.foldl_cons, List.foldl_nil,
        List.length_append, List.length_cons, List.length_nil]
      have hle : (n + 1) / 10 ≤ f := by omega
      rw [ih ((n + 1) / 10) acc hle]
      rw [digitChar_toNat ((n + 1) % 10) (by omega)]
      have hdm : (n + 1) / 10 * 10 + (n + 1) % 10 = n + 1 := by omega
      generalize (decAux f ((n + 1) / 10)).length = L
      have hpow : 10 ^ (L + 1) = 10 ^ L * 10 := pow_succ 10 L
      rw [hpow]
      generalize 10 ^ L = A at *
      rw [show acc * (A * 10) = acc * A * 10 from (mul_assoc acc A 10).symm]
      generalize acc * A = B
      omega

theorem recoverNat_decChars (n : Nat) :
    recoverNat (decChars n) = n := by
  by_cases h : n = 0
  · subst h; rfl
  · show (decChars n).foldl _ 0 = n
    have : decChars n = decAux n n := by
      show (if n = 0 then _ else decAux n n) = _
      rw [if_neg h]
    rw [this, recoverNat_decAux n n 0 (Nat.le_refl n)]
    simp

theorem foldl_replicate_zero (k : Nat) :
    (List.replicate k '0').foldl (fun a c => a * 10 + (c.toNat - 48)) 0 = 0 := by
  induction k with
  | zero => rfl
  | succ k ih => simpa [List.replicate_succ] using ih

/-- Zero padding does not change the value a digit fold recovers. -/
theorem recoverNat_padLeft (w n : Nat) :
    recoverNat (padLeft w (decChars n)) = n := by
  show (List.replicate _ '0' ++ decChars n).foldl _ 0 = n
  rw [List.foldl_append, foldl_replicate_zero]
  exact recoverNat_decChars n

/-- `pad w` is injective: the digit fold recovers the padded value. -/
theorem padLeft_injective (w a b : Nat)
    (h : padLeft w (decChars a) = padLeft w (decChars b)) : a = b := by
  have := recoverNat_padLeft w a
  rw [h, recoverNat_padLeft w b] at this
  omega

theorem decChars_lt10' (v : Nat) (h : v < 10) : decChars v = [digitChar v] := by
  by_cases h0 : v = 0
  · subst h0; decide
  · exact decChars_lt10 v (by omega) h

theorem decChars_two (v : Nat) (h1 : 10 ≤ v) (h2 : v < 100) :
    decChars v = [digitChar (v / 10), digitChar (v % 10)] := by
  rw [decChars_ge10 v h1, decChars_lt10' (v / 10) (by omega)]
  rfl

theorem decChars_three (v : Nat) (h1 : 100 ≤ v) (h2 : v < 1000) :
    decChars v = [digitChar (v / 100), digitChar (v / 10 % 10), digitChar (v % 10)] := by
  rw [decChars_ge10 v (by omega), decChars_two (v / 10) (by omega) (by omega)]
  rw [show v / 10 / 10 = v / 100 by omega]
  rfl

theorem decChars_four (v : Nat) (h1 : 1000 ≤ v) (h2 : v < 10000) :
    decChars v = [digitChar (v / 1000), digitChar (v / 100 % 10),
      digitChar (v / 10 % 10), digitChar (v % 10)] := by
  rw [decChars_ge10 v (by omega), decChars_three (v / 10) (by omega) (by omega)]
  rw [show v / 10 / 100 = v / 1000 by omega, show v / 10 / 10 % 10 = v / 100 % 10 by omega]
  rfl

theorem digitChar_zero : digitChar 0 = '0' := by decide

theorem pad2_eq (v : Nat) (h : v < 100) :
    (pad 2 v).data = [digitChar (v / 10), digitChar (v % 10)] := by
  show padLeft 2 (decChars v) = _
  by_cases h10 : v < 10
  · rw [decChars_lt10' v h10, show v / 10 = 0 by omega, show v % 10 = v by omega,
      digitChar_zero]
    rfl
  · rw [decChars_two v (by omega) h]
    rfl

theorem pad4_eq (v : Nat) (h : v < 10000) :
    (pad 4 v).data = [digitChar (v / 1000), digitChar (v / 100 % 10),
      digitChar (v / 10 % 10), digitChar (v % 10)] := by
  show padLeft 4 (decChars v) = _
  by_cases ha : v < 10
  · rw [decChars_lt10' v ha, show v / 1000 = 0 by omega, show v / 100 % 10 = 0 by omega,
      show v / 10 % 10 = 0 by omega, show v % 10 = v by omega, digitChar_zero]
    rfl
  by_cases hb : v < 100
  · rw [decChars_two v (by omega) hb, show v / 1000 = 0 by omega,
      show v / 100 % 10 = 0 by omega, show v / 10 % 10 = v / 10 by omega, digitChar_zero]
    rfl
  by_cases hc : v < 1000
  · rw [decChars_three v (by omega) hc, show v / 1000 = 0 by omega,
      show v / 100 % 10 = v / 100 by omega, digitChar_zero]
    rfl
  · rw [decChars_four v (by omega) h]
    rfl

theorem strData_append (a b : String) : (a ++ b).data = a.data ++ b.data := by
  cases a; cases b; rfl

/-! ### Datetimes

`datetime` values are modelled by their calendar/clock fields.  Comparison and
`timedelta` arithmetic in the source act on instants; the embedding linearizes
a `DateTime` to seconds via the standard civil-calendar day number
(proleptic Gregorian, day 0 = 0000-03-01, a Wednesday). -/

structure DateTime where
  year : Nat
  month : Nat
  day : Nat
  hour : Nat
  minute : Nat
  second : Nat
deriving DecidableEq, Repr

/-- Python's leap-year rule (`calendar.isleap`). -/
def isLeap (y : Nat) : Bool := (y % 4 == 0 && y % 100 != 0) || y % 400 == 0

/-- Days in a month, as enforced by `datetime` construction. -/
def daysInMonth (y m : Nat) : Nat :=
  if m = 2 then (if isLeap y then 29 else 28)
  else if m = 4 ∨ m = 6 ∨ m = 9 ∨ m = 11 then 30
  else 31

/-- Civil-calendar day number of `y-m-d` counted from 0000-03-01. -/
def daysFromCivil (y m d : Nat) : Nat :=
  let y' := if m ≤ 2 then y - 1 else y
  let era := y' / 400
  let yoe := y' % 400
  let mp := if 2 < m then m - 3 else m + 9
  let doy := (153 * mp + 2) / 5 + (d - 1)
  let doe := yoe * 365 + yoe / 4 - yoe / 100 + doy
  era * 146097 + doe

/-- Python `datetime.weekday()`-compatible index: Monday = 0 ... Sunday = 6
(day 0 = 0000-03-01 is a Wednesday, index 2). -/
def weekdayYMD (y m d : Nat) : Nat := (daysFromCivil y m d + 2) % 7

def DateTime.weekday (dt : DateTime) : Nat := weekdayYMD dt.year dt.month dt.day

/-- Linearization of a datetime to seconds; `datetime` comparison and
`timedelta` addition act on this instant. -/
def DateTime.toSec (dt : DateTime) : Nat :=
  daysFromCivil dt.year dt.month dt.day * 86400 +
    dt.hour * 3600 + dt.minute * 60 + dt.second

/-- Python `datetime.time()` as seconds from midnight. -/
def DateTime.timeOfDaySec (dt : DateTime) : Nat :=
  dt.hour * 3600 + dt.minute * 60 + dt.second

/-- Field bounds guaranteed by `datetime` construction (and enforced by both
`fromisoformat` and `strptime`). -/
def ValidDT (dt : DateTime) : Prop :=
  1 ≤ dt.year ∧ dt.year ≤ 9999 ∧ 1 ≤ dt.month ∧ dt.month ≤ 12 ∧
    1 ≤ dt.day ∧ dt.day ≤ daysInMonth dt.year dt.month ∧
    dt.hour ≤ 23 ∧ dt.minute ≤ 59 ∧ dt.second ≤ 59

instance (dt : DateTime) : Decidable (ValidDT dt) := by
  unfold ValidDT; infer_instance

/-! ### Parsing

`BookingManager` accepts a datetime either via `datetime.fromisoformat`
(after a `'Z' -> '+00:00'` substitution) or, on failure, via
`datetime.strptime(s, "%Y-%m-%d %H:%M")`.  The composite accepted language is
modelled as `YYYY-MM-DD{ |T}HH:MM` with an optional `:SS` tail and no
timezone suffix; a string outside it raises `ValueError` (here: `none`). -/

def digitVal? (c : Char) : Option Nat :=
  if 48 ≤ c.toNat ∧ c.toNat ≤ 57 then some (c.toNat - 48) else none

def read2 (a b : Char) : Option Nat :=
  match digitVal? a, digitVal? b with
  | some x, some y => some (10 * x + y)
  | _, _ => none

def read4 (a b c d : Char) : Option Nat :=
  match digitVal? a, digitVal? b, digitVal? c, digitVal? d with
  | some w, some x, some y, some z => some (1000 * w + 100 * x + 10 * y + z)
  | _, _, _, _ => none

/-- `datetime(y, mo, d, h, mi, s)` construction: validates the field ranges. -/
def mkDT (y mo d h mi s : Nat) : Option DateTime :=
  if ValidDT ⟨y, mo, d, h, mi, s⟩ then some ⟨y, mo, d, h, mi, s⟩ else none

def parseDTList : List Char → Option DateTime
  | y1 :: y2 :: y3 :: y4 :: c1 :: a1 :: a2 :: c2 :: b1 :: b2 :: sep :: h1 :: h2 :: c3 :: n1 :: n2 :: rest =>
    if c1 = '-' ∧ c2 = '-' ∧ c3 = ':' ∧ (sep = ' ' ∨ sep = 'T') then
      (read4 y1 y2 y3 y4).bind fun y =>
        (read2 a1 a2).bind fun mo =>
          (read2 b1 b2).bind fun d =>
            (read2 h1 h2).bind fun h =>
              (read2 n1 n2).bind fun mi =>
                match rest with
                | [] => mkDT y mo d h mi 0
                | [c4, s1, s2] =>
                  if c4 = ':' then (read2 s1 s2).bind fun s => mkDT y mo d h mi s
                  else none
                | _ => none
    else none
  | _ => none

def parseDT (s : String) : Option DateTime := parseDTList s.data

/-- `datetime.strptime(s, "%Y-%m-%d")`, returning the date triple. -/
def parseDateList : List Char → Option (Nat × Nat × Nat)
  | y1 :: y2 :: y3 :: y4 :: c1 :: a1 :: a2 :: c2 :: b1 :: b2 :: rest =>
    if c1 = '-' ∧ c2 = '-' ∧ rest = [] then
      (read4 y1 y2 y3 y4).bind fun y =>
        (read2 a1 a2).bind fun mo =>
          (read2 b1 b2).bind fun d =>
            if 1 ≤ y ∧ 1 ≤ mo ∧ mo ≤ 12 ∧ 1 ≤ d ∧ d ≤ daysInMonth y mo then
              some (y, mo, d)
            else none
    else none
  | _ => none

def parseDate (s : String) : Option (Nat × Nat × Nat) := parseDateList s.data

/-- `datetime.strptime(s, "%H:%M").time()`, as minutes from midnight. -/
def parseHMList : List Char → Option Nat
  | h1 :: h2 :: c1 :: n1 :: n2 :: rest =>
    if c1 = ':' ∧ rest = [] then
      (read2 h1 h2).bind fun h =>
        (read2 n1 n2).bind fun mi =>
          if h ≤ 23 ∧ mi ≤ 59 then some (h * 60 + mi) else none
    else none
  | _ => none

def parseHM (s : String) : Option Nat := parseHMList s.data

/-! ### Rendering (`strftime` / `isoformat`) -/

/-- `dt.isoformat()` for a microsecond-free naive datetime:
`YYYY-MM-DDTHH:MM:SS`. -/
def renderIso (dt : DateTime) : String :=
  pad 4 dt.year ++ "-" ++ pad 2 dt.month ++ "-" ++ pad 2 dt.day ++ "T" ++
    pad 2 dt.hour ++ ":" ++ pad 2 dt.minute ++ ":" ++ pad 2 dt.second

/-- `dt.strftime('%Y%m%d')`. -/
def dateStr8 (dt : DateTime) : String :=
  pad 4 dt.year ++ pad 2 dt.month ++ pad 2 dt.day

/-- `current.strftime("%Y-%m-%d %H:%M")` for minute `minOfDay` of day `y-m-d`. -/
def renderYMDHM (y m d minOfDay : Nat) : String :=
  pad 4 y ++ "-" ++ pad 2 m ++ "-" ++ pad 2 d ++ " " ++
    pad 2 (minOfDay / 60) ++ ":" ++ pad 2 (minOfDay % 60)

/-- `current.strftime("%H:%M")`. -/
def renderHM (minOfDay : Nat) : String :=
  pad 2 (minOfDay / 60) ++ ":" ++ pad 2 (minOfDay % 60)

/-! ### The booking store and its operations -/

/-- The distinct `ValueError`/fallthrough outcomes raised by the engine. -/
inductive BErr
  | required
  | parseError
  | notAvailable
deriving DecidableEq, Repr

/-- One appointment record, with the exact field set the engine stores. -/
structure Booking where
  id : Nat
  confirmation_number : String
  patient_name : String
  phone : String
  email : Option String
  appointment_datetime : String
  datetime_iso : String
  reason : Option String
  status : String
  created_at : String
  updated_at : String
deriving DecidableEq, Repr

/-- The in-memory store: `self.bookings`, in insertion order. -/
abbrev Store := List Booking

/-- The fixed office-hours table from `BookingManager.__init__`.  A weekday
whose entry is absent or whose `start` is `None` is closed; both collapse to
`none` here since the availability code treats them identically. -/
def office_hours : String → Option (String × String)
  | "monday" => some ("09:00", "17:00")
  | "tuesday" => some ("09:00", "17:00")
  | "wednesday" => some ("09:00", "17:00")
  | "thursday" => some ("09:00", "17:00")
  | "friday" => some ("09:00", "17:00")
  | "saturday" => some ("09:00", "13:00")
  | _ => none

/-- `dt.strftime("%A").lower()` as a function of `datetime.weekday()`. -/
def dayName : Nat → String
  | 0 => "monday"
  | 1 => "tuesday"
  | 2 => "wednesday"
  | 3 => "thursday"
  | 4 => "friday"
  | 5 => "saturday"
  | _ => "sunday"

/-- Office open/close bounds of a weekday as minutes from midnight
(`datetime.strptime(..., "%H:%M").time()` applied to both table entries). -/
def officeBounds (day : String) : Option (Nat × Nat) :=
  match office_hours day with
  | none => none
  | some (st, en) =>
    match parseHM st, parseHM en with
    | some os, some oe => some (os, oe)
    | _, _ => none

/-- The `exclude_confirmation` test: Python skips the record only when the
argument is truthy (non-`None`, non-empty) and equals the record's number. -/
def excludeMatches (exclude : Option String) (b : Booking) : Bool :=
  match exclude with
  | some e => decide (e ≠ "") && decide (b.confirmation_number = e)
  | none => false

/-- One iteration of the conflict scan in `is_slot_available`: does stored
record `b` rule out a new appointment at instant `dt`?  Cancelled records,
the excluded record, and records whose `datetime_iso` fails to re-parse are
skipped; otherwise the half-open `[start, start+duration)` intervals are
intersected. -/
def blocksSlot (dur : Nat) (dt : DateTime) (exclude : Option String)
    (b : Booking) : Bool :=
  if b.status = "cancelled" then false
  else if excludeMatches exclude b then false
  else
    match parseDT b.datetime_iso with
    | none => false
    | some ex =>
      decide (dt.toSec < ex.toSec + dur * 60) && decide (ex.toSec < dt.toSec + dur * 60)

/-- `is_slot_available` after the datetime has been parsed: the office-hours
check (open inclusive, close exclusive on the start time) followed by the
conflict scan. -/
def availCore (dur : Nat) (s : Store) (dt : DateTime)
    (exclude : Option String) : Bool :=
  match officeBounds (dayName dt.weekday) with
  | none => false
  | some (os, oe) =>
    if dt.timeOfDaySec < os * 60 ∨ oe * 60 ≤ dt.timeOfDaySec then false
    else s.all fun b => ! blocksSlot dur dt exclude b

/-- `BookingManager.is_slot_available`; a malformed datetime string raises
`ValueError` out of the method. -/
def is_slot_available (dur : Nat) (s : Store) (appointment_datetime : String)
    (exclude : Option String) : Except BErr Bool :=
  match parseDT appointment_datetime with
  | none => .error .parseError
  | some dt => .ok (availCore dur s dt exclude)

/-- `BookingManager.get_booking`: first record matching the confirmation
number. -/
def get_booking (s : Store) (conf : String) : Option Booking :=
  s.find? fun b => decide (b.confirmation_number = conf)

/-- `BookingManager.create_booking`.  `now` stands for
`datetime.now().isoformat()`.  A missing or empty datetime raises, then the
string is parsed (both formats), availability is checked, and the record is
appended with confirmation number `APT` + `%Y%m%d` + 4-digit padded
`len(bookings) + 1`. -/
def create_booking (dur : Nat) (s : Store) (patient_name phone : String)
    (email : Option String) (appointment_datetime : Option String)
    (reason : Option String) (status : String) (now : String) :
    Except BErr (Booking × Store) :=
  match appointment_datetime with
  | none => .error .required
  | some ads =>
    if ads = "" then .error .required
    else
      match parseDT ads with
      | none => .error .parseError
      | some dt =>
        if availCore dur s dt none then
          let b : Booking := {
            id := s.length + 1
            confirmation_number := "APT" ++ dateStr8 dt ++ pad 4 (s.length + 1)
            patient_name := patient_name
            phone := phone
            email := email
            appointment_datetime := ads
            datetime_iso := renderIso dt
            reason := reason
            status := status
            created_at := now
            updated_at := now }
          .ok (b, s ++ [b])
        else .error .notAvailable

/-- Replace the first record whose confirmation number is `conf`
(`update_booking` mutates in place the record `get_booking` returned). -/
def setFirst (s : Store) (conf : String) (b' : Booking) : Store :=
  match s with
  | [] => []
  | b :: rest =>
    if b.confirmation_number = conf then b' :: rest
    else b :: setFirst rest conf b'

/-- Lines 153-164 of `update_booking`: when a truthy new datetime string
differs verbatim from the stored display string, re-check availability
excluding this record (raising before any field is written) and overwrite
both datetime fields. -/
def reschedStep (dur : Nat) (s : Store) (conf : String) (b : Booking) :
    Option String → Except BErr Booking
  | none => .ok b
  | some ads =>
    if ads = "" then .ok b
    else if ads = b.appointment_datetime then .ok b
    else
      match parseDT ads with
      | none => .error .parseError
      | some dt =>
        if availCore dur s dt (some conf) then
          .ok { b with appointment_datetime := ads, datetime_iso := renderIso dt }
        else .error .notAvailable

/-- Lines 166-171 of `update_booking`: overwrite `reason`/`status` when the
arguments are not `None` and refresh `updated_at` unconditionally. -/
def applyFields (b1 : Booking) (reason status : Option String) (now : String) :
    Booking :=
  { b1 with
    reason := match reason with | some r => some r | none => b1.reason
    status := match status with | some st => st | none => b1.status
    updated_at := now }

/-- `BookingManager.update_booking`.  `ok none` is Python's `None` return for
an unknown confirmation number; an error from the reschedule check leaves the
store as it was (the raise precedes every field write in the source). -/
def update_booking (dur : Nat) (s : Store) (conf : String)
    (appointment_datetime : Option String) (reason : Option String)
    (status : Option String) (now : String) :
    Except BErr (Option (Booking × Store)) :=
  match get_booking s conf with
  | none => .ok none
  | some b =>
    match reschedStep dur s conf b appointment_datetime with
    | .error e => .error e
    | .ok b1 =>
      .ok (some (applyFields b1 reason status now,
        setFirst s conf (applyFields b1 reason status now)))

/-- `BookingManager.cancel_booking`: `update_booking(..., status="cancelled")`,
returning whether a record was found (paired with the resulting store). -/
def cancel_booking (dur : Nat) (s : Store) (conf : String) (now : String) :
    Except BErr (Bool × Store) :=
  match update_booking dur s conf none none (some "cancelled") now with
  | .error e => .error e
  | .ok none => .ok (false, s)
  | .ok (some (_, s')) => .ok (true, s')

/-- The `while current + duration <= end` loop of `get_available_slots`,
walking minute-of-day `cur` of day `y-m-d` in `dur`-sized steps.  The loop is
fuel-structured for the kernel; any `fuel > endMin - cur` is exact for
`dur ≥ 1` (with `dur = 0` the Python loop does not terminate). -/
def slotsLoop (dur : Nat) (s : Store) (y m d : Nat) :
    Nat → Nat → Nat → Except BErr (List String)
  | 0, _, _ => .ok []
  | fuel + 1, cur, endMin =>
    if cur + dur ≤ endMin then
      match is_slot_available dur s (renderYMDHM y m d cur) none with
      | .error e => .error e
      | .ok avail =>
        match slotsLoop dur s y m d fuel (cur + dur) endMin with
        | .error e => .error e
        | .ok rest => .ok (if avail then renderHM cur :: rest else rest)
    else .ok []

/-- `get_available_slots` after the window strings are fixed: parse
`f"{date} {start}"` and `f"{date} {end}"` (a failure here propagates) and run
the enumeration loop. -/
def gasCore (dur : Nat) (s : Store) (date : String) (y m d : Nat)
    (startT endT : String) : Except BErr (List String) :=
  match parseDT (date ++ " " ++ startT), parseDT (date ++ " " ++ endT) with
  | some cur, some endDt =>
    slotsLoop dur s y m d (endDt.hour * 60 + endDt.minute + 1)
      (cur.hour * 60 + cur.minute) (endDt.hour * 60 + endDt.minute)
  | _, _ => .error .parseError

/-- `BookingManager.get_available_slots`.  A malformed date returns `[]`
(the parse error is swallowed); a closed day returns `[]`; the exact window
pair `("09:00", "17:00")` — the defaults — is replaced by the weekday's
configured office hours. -/
def get_available_slots (dur : Nat) (s : Store) (date : String)
    (start_time : String := "09:00") (end_time : String := "17:00") :
    Except BErr (List String) :=
  match parseDate date with
  | none => .ok []
  | some (y, m, d) =>
    match office_hours (dayName (weekdayYMD y m d)) with
    | none => .ok []
    | some (ws, we) =>
      if start_time = "09:00" ∧ end_time = "17:00" then gasCore dur s date y m d ws we
      else gasCore dur s date y m d start_time end_time

/-- `BookingManager.get_bookings_by_date`: non-cancelled records on the given
calendar date, stably sorted by `datetime_iso`; a malformed date returns `[]`
(the parse error is swallowed). -/
def get_bookings_by_date (s : Store) (date : String) : List Booking :=
  match parseDate date with
  | none => []
  | some (y, m, d) =>
    (s.filter fun b =>
      decide (b.status ≠ "cancelled") &&
        (match parseDT b.datetime_iso with
         | some bd => decide (bd.year = y ∧ bd.month = m ∧ bd.day = d)
         | none => false)).mergeSort fun a b => decide (a.datetime_iso ≤ b.datetime_iso)

/-! ### Parse/render round trips and parser inversion -/

theorem digitVal?_digitChar : ∀ x, x < 10 → digitVal? (digitChar x) = some x := by decide

theorem digitVal?_le9 (c : Char) (x : Nat) (h : digitVal? c = some x) : x ≤ 9 := by
  unfold digitVal? at h
  split at h
  · cases h; omega
  · cases h

theorem read2_digits (a b : Nat) (ha : a < 10) (hb : b < 10) :
    read2 (digitChar a) (digitChar b) = some (10 * a + b) := by
  unfold read2
  rw [digitVal?_digitChar a ha, digitVal?_digitChar b hb]

theorem read4_digits (a b c d : Nat) (ha : a < 10) (hb : b < 10) (hc : c < 10)
    (hd : d < 10) :
    read4 (digitChar a) (digitChar b) (digitChar c) (digitChar d) =
      some (1000 * a + 100 * b + 10 * c + d) := by
  unfold read4
  rw [digitVal?_digitChar a ha, digitVal?_digitChar b hb, digitVal?_digitChar c hc,
    digitVal?_digitChar d hd]

theorem read2_le (a b : Char) (v : Nat) (h : read2 a b = some v) : v ≤ 99 := by
  unfold read2 at h
  split at h
  next x y hx hy =>
    cases h
    have := digitVal?_le9 a x hx
    have := digitVal?_le9 b y hy
    omega
  next => cases h

theorem read4_le (a b c d : Char) (v : Nat) (h : read4 a b c d = some v) : v ≤ 9999 := by
  unfold read4 at h
  split at h
  next w x y z hw hx hy hz =>
    cases h
    have := digitVal?_le9 a w hw
    have := digitVal?_le9 b x hx
    have := digitVal?_le9 c y hy
    have := digitVal?_le9 d z hz
    omega
  next => cases h

theorem daysInMonth_le (y m : Nat) : daysInMonth y m ≤ 31 := by
  unfold daysInMonth
  split
  · split <;> omega
  · split <;> omega

theorem mkDT_valid (y mo d h mi s : Nat) (dt : DateTime)
    (hE : mkDT y mo d h mi s = some dt) : ValidDT dt := by
  unfold mkDT at hE
  split at hE
  · cases hE; assumption
  · cases hE

theorem parseDTList_valid (l : List Char) (dt : DateTime)
    (h : parseDTList l = some dt) : ValidDT dt := by
  unfold parseDTList at h
  repeat' split at h
  all_goals try simp only [Option.bind_eq_some] at h
  all_goals first
    | (obtain ⟨y, _, mo, _, d, _, hq, _, mi, _, s, _, hfin⟩ := h
       first
        | (exact mkDT_valid _ _ _ _ _ _ _ hfin)
        | (cases hfin))
    | (obtain ⟨y, _, mo, _, d, _, hq, _, mi, _, hfin⟩ := h
       first
        | (exact mkDT_valid _ _ _ _ _ _ _ hfin)
        | (cases hfin))
    | (cases h)

theorem parseDT_valid (s : String) (dt : DateTime) (h : parseDT s = some dt) :
    ValidDT dt := parseDTList_valid s.data dt h

theorem validDT_bounds (dt : DateTime) (h : ValidDT dt) :
    1 ≤ dt.year ∧ dt.year < 10000 ∧ 1 ≤ dt.month ∧ dt.month < 100 ∧
      1 ≤ dt.day ∧ dt.day < 100 ∧ dt.hour < 100 ∧ dt.minute < 100 ∧
      dt.second < 100 := by
  obtain ⟨h1, h2, h3, h4, h5, h6, h7, h8, h9⟩ := h
  have := daysInMonth_le dt.year dt.month
  omega

theorem renderIso_data (dt : DateTime)
    (hy : dt.year < 10000) (hmo : dt.month < 100) (hd : dt.day < 100)
    (hh : dt.hour < 100) (hmi : dt.minute < 100) (hs : dt.second < 100) :
    (renderIso dt).data =
      [digitChar (dt.year / 1000), digitChar (dt.year / 100 % 10),
       digitChar (dt.year / 10 % 10), digitChar (dt.year % 10), '-',
       digitChar (dt.month / 10), digitChar (dt.month % 10), '-',
       digitChar (dt.day / 10), digitChar (dt.day % 10), 'T',
       digitChar (dt.hour / 10), digitChar (dt.hour % 10), ':',
       digitChar (dt.minute / 10), digitChar (dt.minute % 10), ':',
       digitChar (dt.second / 10), digitChar (dt.second % 10)] := by
  simp only [renderIso, strData_append, pad4_eq _ hy, pad2_eq _ hmo, pad2_eq _ hd,
    pad2_eq _ hh, pad2_eq _ hmi, pad2_eq _ hs,
    show ("-" : String).data = ['-'] from rfl,
    show ("T" : String).data = ['T'] from rfl,
    show (":" : String).data = [':'] from rfl]
  rfl

theorem parseDTList_build19 (y1 y2 y3 y4 a1 a2 b1 b2 h1 h2 n1 n2 s1 s2 : Char)
    (y mo d h mi s : Nat)
    (hr4 : read4 y1 y2 y3 y4 = some y) (hra : read2 a1 a2 = some mo)
    (hrb : read2 b1 b2 = some d) (hrh : read2 h1 h2 = some h)
    (hrn : read2 n1 n2 = some mi) (hrs : read2 s1 s2 = some s) :
    parseDTList [y1, y2, y3, y4, '-', a1, a2, '-', b1, b2, 'T', h1, h2, ':',
      n1, n2, ':', s1, s2] = mkDT y mo d h mi s := by
  simp only [parseDTList]
  simp [hr4, hra, hrb, hrh, hrn, hrs]

theorem parseDTList_build16 (sep y1 y2 y3 y4 a1 a2 b1 b2 h1 h2 n1 n2 : Char)
    (y mo d h mi : Nat) (hsep : sep = ' ' ∨ sep = 'T')
    (hr4 : read4 y1 y2 y3 y4 = some y) (hra : read2 a1 a2 = some mo)
    (hrb : read2 b1 b2 = some d) (hrh : read2 h1 h2 = some h)
    (hrn : read2 n1 n2 = some mi) :
    parseDTList [y1, y2, y3, y4, '-', a1, a2, '-', b1, b2, sep, h1, h2, ':',
      n1, n2] = mkDT y mo d h mi 0 := by
  rcases hsep with h | h <;> subst h <;>
    (simp only [parseDTList]; simp [hr4, hra, hrb, hrh, hrn])

theorem parseDT_renderIso (dt : DateTime) (h : ValidDT dt) :
    parseDT (renderIso dt) = some dt := by
  have hb := validDT_bounds dt h
  have hr4 : read4 (digitChar (dt.year / 1000)) (digitChar (dt.year / 100 % 10))
      (digitChar (dt.year / 10 % 10)) (digitChar (dt.year % 10)) = some dt.year := by
    rw [read4_digits _ _ _ _ (by omega) (by omega) (by omega) (by omega)]
    congr 1
    omega
  have hra : read2 (digitChar (dt.month / 10)) (digitChar (dt.month % 10)) =
      some dt.month := by
    rw [read2_digits _ _ (by omega) (by omega)]
    congr 1
    omega
  have hrb : read2 (digitChar (dt.day / 10)) (digitChar (dt.day % 10)) =
      some dt.day := by
    rw [read2_digits _ _ (by omega) (by omega)]
    congr 1
    omega
  have hrh : read2 (digitChar (dt.hour / 10)) (digitChar (dt.hour % 10)) =
      some dt.hour := by
    rw [read2_digits _ _ (by omega) (by omega)]
    congr 1
    omega
  have hrn : read2 (digitChar (dt.minute / 10)) (digitChar (dt.minute % 10)) =
      some dt.minute := by
    rw [read2_digits _ _ (by omega) (by omega)]
    congr 1
    omega
  have hrs : read2 (digitChar (dt.second / 10)) (digitChar (dt.second % 10)) =
      some dt.second := by
    rw [read2_digits _ _ (by omega) (by omega)]
    congr 1
    omega
  show parseDTList (renderIso dt).data = some dt
  rw [renderIso_data dt (by omega) (by omega) (by omega) (by omega) (by omega) (by omega)]
  rw [parseDTList_build19 _ _ _ _ _ _ _ _ _ _ _ _ _ _ _ _ _ _ _ _ hr4 hra hrb hrh hrn hrs]
  unfold mkDT
  rw [if_pos h]


theorem parseHMList_inv (l : List Char) (v : Nat) (h : parseHMList l = some v) :
    ∃ h1 h2 n1 n2 hv nv, l = [h1, h2, ':', n1, n2] ∧ read2 h1 h2 = some hv ∧
      read2 n1 n2 = some nv ∧ hv ≤ 23 ∧ nv ≤ 59 ∧ v = hv * 60 + nv := by
  rcases l with _ | ⟨h1, _ | ⟨h2, _ | ⟨c1, _ | ⟨n1, _ | ⟨n2, rest⟩⟩⟩⟩⟩
  · cases h
  · cases h
  · cases h
  · cases h
  · cases h
  · simp only [parseHMList] at h
    by_cases hc : c1 = ':' ∧ rest = []
    · obtain ⟨hc1, hrest⟩ := hc
      subst hc1
      subst hrest
      rw [if_pos ⟨rfl, rfl⟩] at h
      simp only [Option.bind_eq_some] at h
      obtain ⟨hv, hrh, nv, hrn, hfin⟩ := h
      by_cases hb : hv ≤ 23 ∧ nv ≤ 59
      · rw [if_pos hb] at hfin
        cases hfin
        exact ⟨h1, h2, n1, n2, hv, nv, rfl, hrh, hrn, hb.1, hb.2, rfl⟩
      · rw [if_neg hb] at hfin
        cases hfin
    · rw [if_neg hc] at h
      cases h

theorem parseDateList_inv (l : List Char) (y m d : Nat)
    (h : parseDateList l = some (y, m, d)) :
    ∃ y1 y2 y3 y4 a1 a2 b1 b2, l = [y1, y2, y3, y4, '-', a1, a2, '-', b1, b2] ∧
      read4 y1 y2 y3 y4 = some y ∧ read2 a1 a2 = some m ∧ read2 b1 b2 = some d ∧
      1 ≤ y ∧ y ≤ 9999 ∧ 1 ≤ m ∧ m ≤ 12 ∧ 1 ≤ d ∧ d ≤ daysInMonth y m := by
  rcases l with _ | ⟨y1, _ | ⟨y2, _ | ⟨y3, _ | ⟨y4, _ | ⟨c1, _ | ⟨a1, _ | ⟨a2,
    _ | ⟨c2, _ | ⟨b1, _ | ⟨b2, rest⟩⟩⟩⟩⟩⟩⟩⟩⟩⟩
  · cases h
  · cases h
  · cases h
  · cases h
  · cases h
  · cases h
  · cases h
  · cases h
  · cases h
  · cases h
  · simp only [parseDateList] at h
    by_cases hc : c1 = '-' ∧ c2 = '-' ∧ rest = []
    · obtain ⟨hc1, hc2, hrest⟩ := hc
      subst hc1
      subst hc2
      subst hrest
      rw [if_pos ⟨rfl, rfl, rfl⟩] at h
      simp only [Option.bind_eq_some] at h
      obtain ⟨y', hr4, m', hra, d', hrb, hfin⟩ := h
      by_cases hb : 1 ≤ y' ∧ 1 ≤ m' ∧ m' ≤ 12 ∧ 1 ≤ d' ∧ d' ≤ daysInMonth y' m'
      · rw [if_pos hb] at hfin
        obtain ⟨rfl, rfl, rfl⟩ : y' = y ∧ m' = m ∧ d' = d := by
          simpa using Option.some.inj hfin
        exact ⟨y1, y2, y3, y4, a1, a2, b1, b2, rfl, hr4, hra, hrb, hb.1,
          read4_le _ _ _ _ _ hr4, hb.2.1, hb.2.2.1, hb.2.2.2.1, hb.2.2.2.2⟩
      · rw [if_neg hb] at hfin
        cases hfin
    · rw [if_neg hc] at h
      cases h

theorem parseHM_le (s : String) (v : Nat) (h : parseHM s = some v) : v ≤ 1439 := by
  obtain ⟨h1, h2, n1, n2, hv, nv, _, _, _, hhv, hnv, hveq⟩ :=
    parseHMList_inv s.data v h
  omega

/-- Parsing `f"{date} {hm}"` with `"%Y-%m-%d %H:%M"` recombines a valid parsed
date and a valid parsed time of day. -/
theorem parseDT_date_hm (date hm : String) (y m d v : Nat)
    (hdate : parseDate date = some (y, m, d)) (hhm : parseHM hm = some v) :
    parseDT (date ++ " " ++ hm) = some ⟨y, m, d, v / 60, v % 60, 0⟩ := by
  obtain ⟨y1, y2, y3, y4, a1, a2, b1, b2, hl, hr4, hra, hrb, hy1, hy2, hm1, hm2,
    hd1, hd2⟩ := parseDateList_inv date.data y m d hdate
  obtain ⟨h1, h2, n1, n2, hv, nv, hlhm, hrh, hrn, hhv, hnv, hveq⟩ :=
    parseHMList_inv hm.data v hhm
  show parseDTList (date ++ " " ++ hm).data = _
  rw [strData_append, strData_append, hl, hlhm,
    show (" " : String).data = [' '] from rfl]
  have hjoin : ([y1, y2, y3, y4, '-', a1, a2, '-', b1, b2] ++ [' '] ++
      [h1, h2, ':', n1, n2]) =
      [y1, y2, y3, y4, '-', a1, a2, '-', b1, b2, ' ', h1, h2, ':', n1, n2] := rfl
  rw [hjoin, parseDTList_build16 _ _ _ _ _ _ _ _ _ _ _ _ _ _ _ _ _ _
    (Or.inl rfl) hr4 hra hrb hrh hrn]
  unfold mkDT
  rw [if_pos ⟨hy1, hy2, hm1, hm2, hd1, hd2, hhv, hnv, Nat.zero_le 59⟩]
  subst hveq
  rw [show (hv * 60 + nv) / 60 = hv by omega, show (hv * 60 + nv) % 60 = nv by omega]

/-- The loop's slot string `"%Y-%m-%d %H:%M"` re-parses to the intended
instant. -/
theorem parseDT_renderYMDHM (y m d c : Nat)
    (hy1 : 1 ≤ y) (hy2 : y ≤ 9999) (hm1 : 1 ≤ m) (hm2 : m ≤ 12)
    (hd1 : 1 ≤ d) (hd2 : d ≤ daysInMonth y m) (hc : c < 1440) :
    parseDT (renderYMDHM y m d c) = some ⟨y, m, d, c / 60, c % 60, 0⟩ := by
  have hd100 : d < 100 := by
    have := daysInMonth_le y m
    omega
  have hch : c / 60 < 100 := by omega
  have hcm : c % 60 < 100 := by omega
  have hr4 : read4 (digitChar (y / 1000)) (digitChar (y / 100 % 10))
      (digitChar (y / 10 % 10)) (digitChar (y % 10)) = some y := by
    rw [read4_digits _ _ _ _ (by omega) (by omega) (by omega) (by omega)]
    congr 1
    omega
  have hra : read2 (digitChar (m / 10)) (digitChar (m % 10)) = some m := by
    rw [read2_digits _ _ (by omega) (by omega)]
    congr 1
    omega
  have hrb : read2 (digitChar (d / 10)) (digitChar (d % 10)) = some d := by
    rw [read2_digits _ _ (by omega) (by omega)]
    congr 1
    omega
  have hrh : read2 (digitChar (c / 60 / 10)) (digitChar (c / 60 % 10)) =
      some (c / 60) := by
    rw [read2_digits _ _ (by omega) (by omega)]
    congr 1
    omega
  have hrn : read2 (digitChar (c % 60 / 10)) (digitChar (c % 60 % 10)) =
      some (c % 60) := by
    rw [read2_digits _ _ (by omega) (by omega)]
    congr 1
    omega
  show parseDTList (renderYMDHM y m d c).data = _
  have hdata : (renderYMDHM y m d c).data =
      [digitChar (y / 1000), digitChar (y / 100 % 10), digitChar (y / 10 % 10),
       digitChar (y % 10), '-', digitChar (m / 10), digitChar (m % 10), '-',
       digitChar (d / 10), digitChar (d % 10), ' ',
       digitChar (c / 60 / 10), digitChar (c / 60 % 10), ':',
       digitChar (c % 60 / 10), digitChar (c % 60 % 10)] := by
    simp only [renderYMDHM, strData_append, pad4_eq _ (by omega : y < 10000),
      pad2_eq _ (by omega : m < 100), pad2_eq _ hd100,
      pad2_eq _ hch, pad2_eq _ hcm,
      show ("-" : String).data = ['-'] from rfl,
      show (" " : String).data = [' '] from rfl,
      show (":" : String).data = [':'] from rfl]
    rfl
  rw [hdata, parseDTList_build16 _ _ _ _ _ _ _ _ _ _ _ _ _ _ _ _ _ _
    (Or.inl rfl) hr4 hra hrb hrh hrn]
  unfold mkDT
  rw [if_pos ⟨hy1, hy2, hm1, hm2, hd1, hd2, show c / 60 ≤ 23 by omega,
    show c % 60 ≤ 59 by omega, Nat.zero_le 59⟩]

/-- The emitted `"%H:%M"` string parses back to the minute it renders. -/
theorem parseHM_renderHM (c : Nat) (hc : c < 1440) :
    parseHM (renderHM c) = some c := by
  have hrh : read2 (digitChar (c / 60 / 10)) (digitChar (c / 60 % 10)) =
      some (c / 60) := by
    rw [read2_digits _ _ (by omega) (by omega)]
    congr 1
    omega
  have hrn : read2 (digitChar (c % 60 / 10)) (digitChar (c % 60 % 10)) =
      some (c % 60) := by
    rw [read2_digits _ _ (by omega) (by omega)]
    congr 1
    omega
  show parseHMList (renderHM c).data = _
  have hdata : (renderHM c).data =
      [digitChar (c / 60 / 10), digitChar (c / 60 % 10), ':',
       digitChar (c % 60 / 10), digitChar (c % 60 % 10)] := by
    simp only [renderHM, strData_append, pad2_eq _ (by omega : c / 60 < 100),
      pad2_eq _ (by omega : c % 60 < 100),
      show (":" : String).data = [':'] from rfl]
    rfl
  rw [hdata]
  have h23 : c / 60 ≤ 23 := by omega
  have h59 : c % 60 ≤ 59 := by omega
  simp [parseHMList, hrh, hrn, h23, h59]
  omega

/-! ### Availability characterization -/

theorem officeBounds_eq (day ws we : String) (h : office_hours day = some (ws, we)) :
    ∃ os oe, parseHM ws = some os ∧ parseHM we = some oe ∧
      officeBounds day = some (os, oe) ∧ os ≤ 1439 ∧ oe ≤ 1439 := by
  have h' := h
  unfold office_hours at h
  split at h
  all_goals try cases h
  all_goals first
    | exact ⟨540, 1020, by decide, by decide, by unfold officeBounds; rw [h']; rfl,
        by omega, by omega⟩
    | exact ⟨540, 780, by decide, by decide, by unfold officeBounds; rw [h']; rfl,
        by omega, by omega⟩

theorem availCore_eq_false_of_closed (dur : Nat) (s : Store) (dt : DateTime)
    (ex : Option String) (h : officeBounds (dayName dt.weekday) = none) :
    availCore dur s dt ex = false := by
  unfold availCore
  rw [h]

theorem availCore_eq_false_of_early (dur : Nat) (s : Store) (dt : DateTime)
    (ex : Option String) (os oe : Nat)
    (h : officeBounds (dayName dt.weekday) = some (os, oe))
    (ht : dt.timeOfDaySec < os * 60) : availCore dur s dt ex = false := by
  unfold availCore
  rw [h]
  show (if dt.timeOfDaySec < os * 60 ∨ oe * 60 ≤ dt.timeOfDaySec then false
    else List.all s fun b => ! blocksSlot dur dt ex b) = false
  rw [if_pos (Or.inl ht)]

theorem availCore_eq_false_of_late (dur : Nat) (s : Store) (dt : DateTime)
    (ex : Option String) (os oe : Nat)
    (h : officeBounds (dayName dt.weekday) = some (os, oe))
    (ht : oe * 60 ≤ dt.timeOfDaySec) : availCore dur s dt ex = false := by
  unfold availCore
  rw [h]
  show (if dt.timeOfDaySec < os * 60 ∨ oe * 60 ≤ dt.timeOfDaySec then false
    else List.all s fun b => ! blocksSlot dur dt ex b) = false
  rw [if_pos (Or.inr ht)]

theorem availCore_eq_true (dur : Nat) (s : Store) (dt : DateTime)
    (ex : Option String) (os oe : Nat)
    (h : officeBounds (dayName dt.weekday) = some (os, oe))
    (h1 : os * 60 ≤ dt.timeOfDaySec) (h2 : dt.timeOfDaySec < oe * 60)
    (hall : ∀ b ∈ s, blocksSlot dur dt ex b = false) :
    availCore dur s dt ex = true := by
  unfold availCore
  rw [h]
  show (if dt.timeOfDaySec < os * 60 ∨ oe * 60 ≤ dt.timeOfDaySec then false
    else List.all s fun b => ! blocksSlot dur dt ex b) = true
  rw [if_neg (by omega : ¬(dt.timeOfDaySec < os * 60 ∨ oe * 60 ≤ dt.timeOfDaySec))]
  simp only [List.all_eq_true]
  intro b hb
  simp [hall b hb]

theorem availCore_true_elim (dur : Nat) (s : Store) (dt : DateTime)
    (ex : Option String) (h : availCore dur s dt ex = true) :
    ∃ os oe, officeBounds (dayName dt.weekday) = some (os, oe) ∧
      os * 60 ≤ dt.timeOfDaySec ∧ dt.timeOfDaySec < oe * 60 ∧
      ∀ b ∈ s, blocksSlot dur dt ex b = false := by
  unfold availCore at h
  split at h
  · cases h
  next os oe hmatch =>
    split at h
    · cases h
    next hcond =>
      refine ⟨os, oe, hmatch, by omega, by omega, ?_⟩
      intro b hb
      have := List.all_eq_true.mp h b hb
      simpa using this

theorem availCore_eq_false_of_blocks (dur : Nat) (s : Store) (dt : DateTime)
    (ex : Option String) (b : Booking) (hmem : b ∈ s)
    (hb : blocksSlot dur dt ex b = true) : availCore dur s dt ex = false := by
  cases hA : availCore dur s dt ex
  · rfl
  · exfalso
    obtain ⟨os, oe, hob, h1, h2, hall⟩ := availCore_true_elim dur s dt ex hA
    have := hall b hmem
    rw [hb] at this
    cases this

theorem blocksSlot_false_not_overlap (dur : Nat) (dt : DateTime)
    (ex : Option String) (b : Booking) (ed : DateTime)
    (hb : blocksSlot dur dt ex b = false) (hst : b.status ≠ "cancelled")
    (hex : excludeMatches ex b = false) (hp : parseDT b.datetime_iso = some ed) :
    ¬(dt.toSec < ed.toSec + dur * 60 ∧ ed.toSec < dt.toSec + dur * 60) := by
  intro hcon
  unfold blocksSlot at hb
  rw [if_neg hst, if_neg (by simp [hex]), hp] at hb
  simp [hcon.1, hcon.2] at hb

theorem blocksSlot_true_of_overlap (dur : Nat) (dt : DateTime)
    (ex : Option String) (b : Booking) (ed : DateTime)
    (hst : b.status ≠ "cancelled") (hex : excludeMatches ex b = false)
    (hp : parseDT b.datetime_iso = some ed)
    (hov : dt.toSec < ed.toSec + dur * 60 ∧ ed.toSec < dt.toSec + dur * 60) :
    blocksSlot dur dt ex b = true := by
  unfold blocksSlot
  rw [if_neg hst, if_neg (by simp [hex]), hp]
  simp [hov.1, hov.2]

/-! ### Store helper lemmas -/

theorem get_booking_conf (s : Store) (conf : String) (b : Booking)
    (h : get_booking s conf = some b) : b.confirmation_number = conf := by
  have := List.find?_some h
  simpa using this

theorem get_booking_mem (s : Store) (conf : String) (b : Booking)
    (h : get_booking s conf = some b) : b ∈ s :=
  List.mem_of_find?_eq_some h

theorem setFirst_map_conf (s : Store) (conf : String) (b' : Booking)
    (hconf : b'.confirmation_number = conf) :
    (setFirst s conf b').map (fun b => b.confirmation_number) =
      s.map (fun b => b.confirmation_number) := by
  induction s with
  | nil => rfl
  | cons a t ih =>
    unfold setFirst
    by_cases ha : a.confirmation_number = conf
    · rw [if_pos ha]
      simp [hconf, ha]
    · rw [if_neg ha]
      simp [ih]

theorem setFirst_length (s : Store) (conf : String) (b' : Booking) :
    (setFirst s conf b').length = s.length := by
  induction s with
  | nil => rfl
  | cons a t ih =>
    unfold setFirst
    split <;> simp [ih]

theorem mem_setFirst (s : Store) (conf : String) (b' x : Booking)
    (h : x ∈ setFirst s conf b') : x ∈ s ∨ x = b' := by
  induction s with
  | nil => cases h
  | cons a t ih =>
    unfold setFirst at h
    by_cases ha : a.confirmation_number = conf
    · rw [if_pos ha] at h
      rcases List.mem_cons.mp h with rfl | hxt
      · exact Or.inr rfl
      · exact Or.inl (List.mem_cons_of_mem a hxt)
    · rw [if_neg ha] at h
      rcases List.mem_cons.mp h with rfl | hxt
      · exact Or.inl (List.mem_cons_self _ _)
      · rcases ih hxt with hx | hx
        · exact Or.inl (List.mem_cons_of_mem a hx)
        · exact Or.inr hx

theorem get_booking_setFirst (s : Store) (conf : String) (b b' : Booking)
    (h : get_booking s conf = some b) (hconf : b'.confirmation_number = conf) :
    get_booking (setFirst s conf b') conf = some b' := by
  induction s with
  | nil => cases h
  | cons a t ih =>
    unfold setFirst
    by_cases ha : a.confirmation_number = conf
    · rw [if_pos ha]
      simp [get_booking, List.find?_cons, hconf]
    · rw [if_neg ha]
      simp only [get_booking, List.find?_cons] at h ⊢
      rw [decide_eq_false ha] at h ⊢
      exact ih h

theorem pairwise_setFirst {R : Booking → Booking → Prop}
    (hsym : ∀ a b, R a b → R b a) (s : Store) (conf : String) (b' : Booking)
    (hdist : List.Pairwise
      (fun a b => a.confirmation_number ≠ b.confirmation_number) s)
    (hp : List.Pairwise R s)
    (hrel : ∀ x ∈ s, x.confirmation_number ≠ conf → R x b') :
    List.Pairwise R (setFirst s conf b') := by
  induction s with
  | nil => exact List.Pairwise.nil
  | cons a t ih =>
    rcases hp with _ | ⟨hpa, hpt⟩
    rcases hdist with _ | ⟨hda, hdt⟩
    unfold setFirst
    by_cases ha : a.confirmation_number = conf
    · rw [if_pos ha]
      constructor
      · intro x hx
        refine hsym _ _ (hrel x (List.mem_cons_of_mem a hx) ?_)
        have := (hda x hx).symm
        rw [ha] at this
        exact this
      · exact hpt
    · rw [if_neg ha]
      constructor
      · intro x hx
        rcases mem_setFirst t conf b' x hx with hxt | rfl
        · exact hpa x hxt
        · exact hrel a (List.mem_cons_self _ _) ha
      · exact ih hdt hpt fun x hx hne => hrel x (List.mem_cons_of_mem _ hx) hne

theorem pairwise_rel_found {R : Booking → Booking → Prop}
    (hsym : ∀ a b, R a b → R b a) (s : Store) (conf : String) (b : Booking)
    (hp : List.Pairwise R s) (hfound : get_booking s conf = some b) :
    ∀ x ∈ s, x.confirmation_number ≠ conf → R x b := by
  induction s with
  | nil => cases hfound
  | cons a t ih =>
    rcases hp with _ | ⟨hpa, hpt⟩
    by_cases ha : a.confirmation_number = conf
    · have hba : b = a := by
        simp only [get_booking, List.find?_cons] at hfound
        rw [decide_eq_true ha] at hfound
        cases hfound
        rfl
      subst hba
      intro x hx hxne
      rcases List.mem_cons.mp hx with rfl | hxt
      · exact absurd ha hxne
      · exact hsym _ _ (hpa x hxt)
    · have hfound' : get_booking t conf = some b := by
        simp only [get_booking, List.find?_cons] at hfound
        rw [decide_eq_false ha] at hfound
        exact hfound
      intro x hx hxne
      rcases List.mem_cons.mp hx with rfl | hxt
      · exact hpa b (get_booking_mem t conf b hfound')
      · exact ih hpt hfound' x hxt hxne

/-! ### Inversion of the mutating operations -/

theorem create_ok_inv (dur : Nat) (s : Store) (pn ph : String) (em : Option String)
    (adt : Option String) (rsn : Option String) (st now : String) (b : Booking)
    (s' : Store) (h : create_booking dur s pn ph em adt rsn st now = .ok (b, s')) :
    ∃ ads dt, adt = some ads ∧ ads ≠ "" ∧ parseDT ads = some dt ∧
      availCore dur s dt none = true ∧
      b = { id := s.length + 1,
            confirmation_number := "APT" ++ dateStr8 dt ++ pad 4 (s.length + 1),
            patient_name := pn, phone := ph, email := em,
            appointment_datetime := ads, datetime_iso := renderIso dt,
            reason := rsn, status := st, created_at := now, updated_at := now } ∧
      s' = s ++ [b] := by
  unfold create_booking at h
  repeat' split at h
  all_goals try cases h
  rename_i a0 ads hne x0 dt hp hav
  exact ⟨ads, dt, rfl, hne, hp, hav, rfl, rfl⟩

theorem applyFields_conf (b1 : Booking) (rsn st : Option String) (now : String) :
    (applyFields b1 rsn st now).confirmation_number = b1.confirmation_number := rfl

theorem applyFields_iso (b1 : Booking) (rsn st : Option String) (now : String) :
    (applyFields b1 rsn st now).datetime_iso = b1.datetime_iso := rfl

theorem applyFields_status_none (b1 : Booking) (rsn : Option String) (now : String) :
    (applyFields b1 rsn none now).status = b1.status := rfl

theorem applyFields_status_some (b1 : Booking) (rsn : Option String)
    (v now : String) : (applyFields b1 rsn (some v) now).status = v := rfl

theorem update_ok_inv (dur : Nat) (s : Store) (conf : String)
    (adt rsn st : Option String) (now : String) (b2 : Booking) (s' : Store)
    (h : update_booking dur s conf adt rsn st now = .ok (some (b2, s'))) :
    ∃ b b1, get_booking s conf = some b ∧
      reschedStep dur s conf b adt = .ok b1 ∧
      b2 = applyFields b1 rsn st now ∧ s' = setFirst s conf b2 := by
  unfold update_booking at h
  repeat' split at h
  all_goals try cases h
  next x0 b hfound x1 b1 hresched =>
    exact ⟨b, b1, hfound, hresched, rfl, rfl⟩

theorem reschedStep_ok_inv (dur : Nat) (s : Store) (conf : String) (b b1 : Booking)
    (adt : Option String) (h : reschedStep dur s conf b adt = .ok b1) :
    ((adt = none ∨ adt = some "" ∨ adt = some b.appointment_datetime) ∧ b1 = b) ∨
    (∃ ads dt, adt = some ads ∧ ads ≠ "" ∧ ads ≠ b.appointment_datetime ∧
      parseDT ads = some dt ∧ availCore dur s dt (some conf) = true ∧
      b1 = { b with appointment_datetime := ads, datetime_iso := renderIso dt }) := by
  unfold reschedStep at h
  repeat' split at h
  all_goals try cases h
  · exact Or.inl ⟨Or.inl rfl, rfl⟩
  next ads hads =>
    exact Or.inl ⟨Or.inr (Or.inl (by rw [hads])), rfl⟩
  next ads hne hsame =>
    exact Or.inl ⟨Or.inr (Or.inr (by rw [hsame])), rfl⟩
  next ads hne hsame x0 dt hp hav =>
    exact Or.inr ⟨ads, dt, rfl, hne, hsame, hp, hav, rfl⟩

/-! ### Reachability and invariants -/

/-- One successful mutation of the store (a failed call leaves the store
unchanged, and `cancel_booking` is an `update_booking` with
`status = "cancelled"`). -/
inductive Step (dur : Nat) (s : Store) : Store → Prop
  | create (pn ph : String) (em adt rsn : Option String) (st now : String)
      (b : Booking) (s' : Store)
      (h : create_booking dur s pn ph em adt rsn st now = .ok (b, s')) :
      Step dur s s'
  | update (conf : String) (adt rsn st : Option String) (now : String)
      (b : Booking) (s' : Store)
      (h : update_booking dur s conf adt rsn st now = .ok (some (b, s'))) :
      Step dur s s'

/-- Stores reachable from the empty store through the engine's operations. -/
inductive Reachable (dur : Nat) : Store → Prop
  | nil : Reachable dur []
  | step {s s' : Store} (hs : Reachable dur s) (hstep : Step dur s s') :
      Reachable dur s'

/-- An `update_booking` call that does not reactivate a cancelled record
without rescheduling it: either the target is not cancelled, or the status is
not being changed to a non-cancelled value, or a genuine reschedule (with its
availability check) happens in the same call. -/
def SafeUpdate (s : Store) (conf : String) (adt st : Option String) : Prop :=
  ∀ b, get_booking s conf = some b →
    b.status ≠ "cancelled" ∨ st = none ∨ st = some "cancelled" ∨
      ∃ ads, adt = some ads ∧ ads ≠ "" ∧ ads ≠ b.appointment_datetime

/-- A `Step` whose updates are all `SafeUpdate`s. -/
inductive GoodStep (dur : Nat) (s : Store) : Store → Prop
  | create (pn ph : String) (em adt rsn : Option String) (st now : String)
      (b : Booking) (s' : Store)
      (h : create_booking dur s pn ph em adt rsn st now = .ok (b, s')) :
      GoodStep dur s s'
  | update (conf : String) (adt rsn st : Option String) (now : String)
      (b : Booking) (s' : Store)
      (h : update_booking dur s conf adt rsn st now = .ok (some (b, s')))
      (hsafe : SafeUpdate s conf adt st) :
      GoodStep dur s s'

/-- Stores reachable from the empty store without reactivating updates. -/
inductive ReachableG (dur : Nat) : Store → Prop
  | nil : ReachableG dur []
  | step {s s' : Store} (hs : ReachableG dur s) (hstep : GoodStep dur s s') :
      ReachableG dur s'

theorem goodStep_step (dur : Nat) (s s' : Store) (h : GoodStep dur s s') :
    Step dur s s' := by
  cases h with
  | create pn ph em adt rsn st now b s' hc => exact Step.create pn ph em adt rsn st now b s' hc
  | update conf adt rsn st now b s' hu hsafe => exact Step.update conf adt rsn st now b s' hu

theorem reachableG_reachable (dur : Nat) (s : Store) (h : ReachableG dur s) :
    Reachable dur s := by
  induction h with
  | nil => exact Reachable.nil
  | step hs hstep ih => exact Reachable.step ih (goodStep_step _ _ _ hstep)

/-- Two records may coexist: unless one of them is cancelled, their half-open
`[start, start + duration)` intervals (from the re-parsed `datetime_iso`) do
not intersect. -/
def Compat (dur : Nat) (a b : Booking) : Prop :=
  a.status ≠ "cancelled" → b.status ≠ "cancelled" →
    ∀ da db, parseDT a.datetime_iso = some da → parseDT b.datetime_iso = some db →
      ¬(da.toSec < db.toSec + dur * 60 ∧ db.toSec < da.toSec + dur * 60)

/-- The non-overlap invariant over a store. -/
def NoOverlap (dur : Nat) (s : Store) : Prop := List.Pairwise (Compat dur) s

theorem compat_symm (dur : Nat) (a b : Booking) (h : Compat dur a b) :
    Compat dur b a := by
  intro hbst hast x y hpb hpa hov
  exact h hast hbst y x hpa hpb ⟨hov.2, hov.1⟩

/-- The shape of every assigned confirmation number: `"APT"`, an 8-character
date, and the 4-digit-padded sequence number `i + 1` of the record at
position `i`. -/
def confPattern (i : Nat) (c : String) : Prop :=
  ∃ ds : List Char, ds.length = 8 ∧
    c.data = 'A' :: 'P' :: 'T' :: (ds ++ padLeft 4 (decChars (i + 1)))

/-- Positional invariant on the list of stored confirmation numbers. -/
def ConfInv (cs : List String) : Prop :=
  ∀ i (hi : i < cs.length), confPattern i cs[i]

theorem confPattern_inj (i j : Nat) (c : String) (hi : confPattern i c)
    (hj : confPattern j c) : i = j := by
  obtain ⟨ds, hds, hdata⟩ := hi
  obtain ⟨ds', hds', hdata'⟩ := hj
  rw [hdata] at hdata'
  injection hdata' with _ h1
  injection h1 with _ h2
  injection h2 with _ h3
  have hsplit := List.append_inj h3 (by rw [hds, hds'])
  have := padLeft_injective 4 (i + 1) (j + 1) hsplit.2
  omega

theorem confInv_nodup (cs : List String) (h : ConfInv cs) :
    List.Pairwise (fun a b => a ≠ b) cs := by
  rw [List.pairwise_iff_getElem]
  intro i j hi hj hij heq
  have := confPattern_inj i j cs[j] (heq ▸ h i hi) (h j hj)
  omega

theorem confInv_append (cs : List String) (c : String) (h : ConfInv cs)
    (hc : confPattern cs.length c) : ConfInv (cs ++ [c]) := by
  intro i hi
  simp only [List.length_append, List.length_singleton] at hi
  by_cases hlt : i < cs.length
  · have hg : (cs ++ [c])[i] = cs[i] := List.getElem_append_left hlt
    rw [hg]
    exact h i hlt
  · have hieq : i = cs.length := by omega
    subst hieq
    have hg : (cs ++ [c])[cs.length] = c := by simp
    rw [hg]
    exact hc

theorem reschedStep_conf (dur : Nat) (s : Store) (conf : String) (b b1 : Booking)
    (adt : Option String) (h : reschedStep dur s conf b adt = .ok b1) :
    b1.confirmation_number = b.confirmation_number := by
  rcases reschedStep_ok_inv dur s conf b b1 adt h with ⟨-, rfl⟩ |
    ⟨ads, dt, -, -, -, -, -, rfl⟩ <;> rfl

theorem confPattern_create (dt : DateTime) (hv : ValidDT dt) (i : Nat) :
    confPattern i ("APT" ++ dateStr8 dt ++ pad 4 (i + 1)) := by
  obtain ⟨h1, h2, h3, h4, h5, h6, h7, h8, h9⟩ := validDT_bounds dt hv
  refine ⟨(dateStr8 dt).data, ?_, ?_⟩
  · simp only [dateStr8, strData_append, pad4_eq dt.year (by omega),
      pad2_eq dt.month (by omega), pad2_eq dt.day (by omega)]
    rfl
  · show ("APT" ++ dateStr8 dt ++ pad 4 (i + 1)).data = _
    rw [strData_append, strData_append]
    rfl

theorem step_confInv (dur : Nat) (s s' : Store) (hstep : Step dur s s')
    (hinv : ConfInv (s.map fun b => b.confirmation_number)) :
    ConfInv (s'.map fun b => b.confirmation_number) := by
  cases hstep with
  | create pn ph em adt rsn st now b s2 h =>
    obtain ⟨ads, dt, hadt, hne, hp, hav, hb, hs2⟩ :=
      create_ok_inv dur s pn ph em adt rsn st now b s' h
    subst hs2
    rw [List.map_append]
    show ConfInv ((s.map fun b => b.confirmation_number) ++ [b.confirmation_number])
    refine confInv_append _ _ hinv ?_
    rw [List.length_map]
    subst hb
    exact confPattern_create dt (parseDT_valid _ _ hp) s.length
  | update conf adt rsn st now b2 s2 h =>
    obtain ⟨b, b1, hfound, hresched, hb2, hs2⟩ :=
      update_ok_inv dur s conf adt rsn st now b2 s' h
    subst hs2
    have hconf2 : b2.confirmation_number = conf := by
      rw [hb2, applyFields_conf, reschedStep_conf dur s conf b b1 adt hresched,
        get_booking_conf s conf b hfound]
    rw [setFirst_map_conf s conf b2 hconf2]
    exact hinv

theorem reachable_confInv (dur : Nat) (s : Store) (h : Reachable dur s) :
    ConfInv (s.map fun b => b.confirmation_number) := by
  induction h with
  | nil => intro i hi; simp at hi
  | step hs hstep ih => exact step_confInv _ _ _ hstep ih

/-- Pairwise distinctness of stored confirmation numbers. -/
def DistinctConfs (s : Store) : Prop :=
  List.Pairwise (fun a b => a.confirmation_number ≠ b.confirmation_number) s

theorem reachable_distinct (dur : Nat) (s : Store) (h : Reachable dur s) :
    DistinctConfs s :=
  List.pairwise_map.mp (confInv_nodup _ (reachable_confInv dur s h))

/-- A successful creation preserves the non-overlap invariant: the passed
availability check certifies the new record against every stored
non-cancelled one. -/
theorem create_noOverlap (dur : Nat) (s : Store) (pn ph : String)
    (em adt rsn : Option String) (st now : String) (b : Booking) (s' : Store)
    (h : create_booking dur s pn ph em adt rsn st now = .ok (b, s'))
    (hno : NoOverlap dur s) : NoOverlap dur s' := by
  obtain ⟨ads, dt, hadt, hne, hp, hav, hb, hs'⟩ :=
    create_ok_inv dur s pn ph em adt rsn st now b s' h
  subst hs'
  rw [NoOverlap, List.pairwise_append]
  refine ⟨hno, List.pairwise_singleton _ _, ?_⟩
  intro x hx y hy
  have hyb : b = y := (List.mem_singleton.mp hy).symm
  subst hyb
  intro hxst hbst dx db hpx hpb
  have hiso : parseDT b.datetime_iso = some dt := by
    rw [hb]
    exact parseDT_renderIso dt (parseDT_valid _ _ hp)
  have hdb : db = dt := by
    rw [hiso] at hpb
    exact (Option.some.inj hpb).symm
  obtain ⟨os, oe, hob, h1, h2, hall⟩ := availCore_true_elim dur s dt none hav
  intro hov
  rw [hdb] at hov
  exact blocksSlot_false_not_overlap dur dt none x dx (hall x hx) hxst rfl hpx
    ⟨hov.2, hov.1⟩

/-- A successful update preserves the non-overlap invariant, provided it is
not a bare reactivation of a cancelled record (`SafeUpdate`).  Distinctness
of confirmation numbers is needed because the availability check excludes
records by confirmation number. -/
theorem update_noOverlap (dur : Nat) (s : Store) (conf : String)
    (adt rsn st : Option String) (now : String) (b2 : Booking) (s' : Store)
    (h : update_booking dur s conf adt rsn st now = .ok (some (b2, s')))
    (hdist : DistinctConfs s) (hno : NoOverlap dur s)
    (hsafe : SafeUpdate s conf adt st) : NoOverlap dur s' := by
  obtain ⟨b, b1, hfound, hresched, hb2, hs'⟩ :=
    update_ok_inv dur s conf adt rsn st now b2 s' h
  subst hs'
  have hconfb := get_booking_conf s conf b hfound
  apply pairwise_setFirst (compat_symm dur) s conf b2 hdist hno
  intro x hx hxconf
  rcases reschedStep_ok_inv dur s conf b b1 adt hresched with ⟨hcase, hb1b⟩ |
    ⟨ads, dt, hadt, hne, hdiff, hp, hav, hb1⟩
  · rw [hb1b] at hb2
    intro hxst hb2st dx d2 hpx hp2
    have hiso2 : b2.datetime_iso = b.datetime_iso := by rw [hb2, applyFields_iso]
    rw [hiso2] at hp2
    have hbst : b.status ≠ "cancelled" := by
      rcases hsafe b hfound with hok | hnone | hcanc | ⟨ads, hadt, hne', hdiff⟩
      · exact hok
      · have hst : b2.status = b.status := by rw [hb2, hnone]; rfl
        rw [hst] at hb2st
        exact hb2st
      · exfalso
        apply hb2st
        rw [hb2, hcanc]
        rfl
      · rcases hcase with h0 | h0 | h0 <;> rw [h0] at hadt
        · cases hadt
        · exact absurd (Option.some.inj hadt).symm hne'
        · exact absurd (Option.some.inj hadt).symm hdiff
    exact pairwise_rel_found (compat_symm dur) s conf b hno hfound x hx hxconf
      hxst hbst dx d2 hpx hp2
  · intro hxst hb2st dx d2 hpx hp2
    have hiso2 : b2.datetime_iso = renderIso dt := by
      rw [hb2, applyFields_iso, hb1]
    rw [hiso2, parseDT_renderIso dt (parseDT_valid _ _ hp)] at hp2
    have hd2 : d2 = dt := (Option.some.inj hp2).symm
    obtain ⟨os, oe, hob, h1, h2, hall⟩ := availCore_true_elim dur s dt (some conf) hav
    have hexm : excludeMatches (some conf) x = false := by
      unfold excludeMatches
      simp [hxconf]
    intro hov
    rw [hd2] at hov
    exact blocksSlot_false_not_overlap dur dt (some conf) x dx (hall x hx) hxst
      hexm hpx ⟨hov.2, hov.1⟩

/-- Master invariant: without bare reactivations, every reachable store has
pairwise non-overlapping non-cancelled records. -/
theorem reachableG_noOverlap (dur : Nat) (s : Store) (h : ReachableG dur s) :
    NoOverlap dur s := by
  induction h with
  | nil => exact List.Pairwise.nil
  | step hs hstep ih =>
    rename_i s0 s1
    have hdist : DistinctConfs s0 :=
      reachable_distinct dur s0 (reachableG_reachable dur s0 hs)
    cases hstep with
    | create pn ph em adt rsn st now b s2 hc =>
      exact create_noOverlap dur s0 pn ph em adt rsn st now b s1 hc ih
    | update conf adt rsn st now b2 s2 hu hsafe =>
      exact update_noOverlap dur s0 conf adt rsn st now b2 s1 hu hdist ih hsafe

/-! ### Computation lemmas for cancellation and failing updates -/

theorem cancel_found_eq (dur : Nat) (s : Store) (conf now : String) (b : Booking)
    (h : get_booking s conf = some b) :
    cancel_booking dur s conf now =
      .ok (true, setFirst s conf { b with status := "cancelled", updated_at := now }) := by
  unfold cancel_booking update_booking
  rw [h]
  rfl

theorem cancel_not_found (dur : Nat) (s : Store) (conf now : String)
    (h : get_booking s conf = none) :
    cancel_booking dur s conf now = .ok (false, s) := by
  unfold cancel_booking update_booking
  rw [h]

theorem reschedStep_conflict (dur : Nat) (s : Store) (conf : String) (b : Booking)
    (ads : String) (hne : ads ≠ "") (hdiff : ads ≠ b.appointment_datetime)
    (dt : DateTime) (hp : parseDT ads = some dt)
    (hav : availCore dur s dt (some conf) = false) :
    reschedStep dur s conf b (some ads) = .error .notAvailable := by
  simp only [reschedStep]
  rw [if_neg hne, if_neg hdiff, hp]
  show (if availCore dur s dt (some conf) = true then
      Except.ok { b with appointment_datetime := ads, datetime_iso := renderIso dt }
    else Except.error BErr.notAvailable) = Except.error BErr.notAvailable
  rw [if_neg (by rw [hav]; simp)]

theorem update_conflict_error (dur : Nat) (s : Store) (conf : String) (b : Booking)
    (ads now : String) (rsn st : Option String)
    (hfound : get_booking s conf = some b) (hne : ads ≠ "")
    (hdiff : ads ≠ b.appointment_datetime) (dt : DateTime)
    (hp : parseDT ads = some dt) (hav : availCore dur s dt (some conf) = false) :
    update_booking dur s conf (some ads) rsn st now = .error .notAvailable := by
  simp only [update_booking, hfound,
    reschedStep_conflict dur s conf b ads hne hdiff dt hp hav]

theorem reschedStep_parse_error (dur : Nat) (s : Store) (conf : String)
    (b : Booking) (ads : String) (hne : ads ≠ "")
    (hdiff : ads ≠ b.appointment_datetime) (hp : parseDT ads = none) :
    reschedStep dur s conf b (some ads) = .error .parseError := by
  simp only [reschedStep]
  rw [if_neg hne, if_neg hdiff, hp]

theorem update_parse_error (dur : Nat) (s : Store) (conf : String) (b : Booking)
    (ads now : String) (rsn st : Option String)
    (hfound : get_booking s conf = some b) (hne : ads ≠ "")
    (hdiff : ads ≠ b.appointment_datetime) (hp : parseDT ads = none) :
    update_booking dur s conf (some ads) rsn st now = .error .parseError := by
  simp only [update_booking, hfound,
    reschedStep_parse_error dur s conf b ads hne hdiff hp]

theorem create_parse_error (dur : Nat) (s : Store) (pn ph : String)
    (em rsn : Option String) (st now : String) (ads : String) (hne : ads ≠ "")
    (hp : parseDT ads = none) :
    create_booking dur s pn ph em (some ads) rsn st now = .error .parseError := by
  simp only [create_booking]
  rw [if_neg hne, hp]

theorem is_slot_available_parse_error (dur : Nat) (s : Store) (ads : String)
    (ex : Option String) (hp : parseDT ads = none) :
    is_slot_available dur s ads ex = .error .parseError := by
  unfold is_slot_available
  rw [hp]

theorem gas_malformed_date (dur : Nat) (s : Store) (date : String)
    (st et : String) (hpd : parseDate date = none) :
    get_available_slots dur s date st et = .ok [] := by
  simp only [get_available_slots]
  rw [hpd]

theorem gbd_malformed_date (s : Store) (date : String)
    (hpd : parseDate date = none) : get_bookings_by_date s date = [] := by
  simp only [get_bookings_by_date]
  rw [hpd]

/-! ### Confirmation numbers are never reused: confirmations already stored
are preserved, in place, by every step -/

theorem step_conf_extend (dur : Nat) (s s' : Store) (hstep : Step dur s s') :
    ∃ t, s'.map (fun b => b.confirmation_number) =
      s.map (fun b => b.confirmation_number) ++ t := by
  cases hstep with
  | create pn ph em adt rsn st now b s2 h =>
    obtain ⟨ads, dt, hadt, hne, hp, hav, hb, hs2⟩ :=
      create_ok_inv dur s pn ph em adt rsn st now b s' h
    subst hs2
    exact ⟨[b.confirmation_number], by simp⟩
  | update conf adt rsn st now b2 s2 h =>
    obtain ⟨b, b1, hfound, hresched, hb2, hs2⟩ :=
      update_ok_inv dur s conf adt rsn st now b2 s' h
    subst hs2
    have hconf2 : b2.confirmation_number = conf := by
      rw [hb2, applyFields_conf, reschedStep_conf dur s conf b b1 adt hresched,
        get_booking_conf s conf b hfound]
    exact ⟨[], by rw [List.append_nil]; exact setFirst_map_conf s conf b2 hconf2⟩

/-! ### Status values are caller-controlled -/

/-- The status set documented in the data model. -/
def allowedStatus (v : String) : Prop :=
  v = "confirmed" ∨ v = "pending" ∨ v = "cancelled"

theorem reschedStep_status (dur : Nat) (s : Store) (conf : String) (b b1 : Booking)
    (adt : Option String) (h : reschedStep dur s conf b adt = .ok b1) :
    b1.status = b.status := by
  rcases reschedStep_ok_inv dur s conf b b1 adt h with ⟨-, rfl⟩ |
    ⟨ads, dt, -, -, -, -, -, rfl⟩ <;> rfl

theorem create_statuses (dur : Nat) (s : Store) (pn ph : String)
    (em adt rsn : Option String) (st now : String) (b : Booking) (s' : Store)
    (h : create_booking dur s pn ph em adt rsn st now = .ok (b, s'))
    (hall : ∀ x ∈ s, allowedStatus x.status) (hst : allowedStatus st) :
    ∀ x ∈ s', allowedStatus x.status := by
  obtain ⟨ads, dt, hadt, hne, hp, hav, hb, hs'⟩ :=
    create_ok_inv dur s pn ph em adt rsn st now b s' h
  subst hs'
  intro x hx
  rcases List.mem_append.mp hx with hxs | hxb
  · exact hall x hxs
  · rw [List.mem_singleton] at hxb
    subst hxb
    rw [hb]
    exact hst

theorem update_statuses (dur : Nat) (s : Store) (conf : String)
    (adt rsn st : Option String) (now : String) (b2 : Booking) (s' : Store)
    (h : update_booking dur s conf adt rsn st now = .ok (some (b2, s')))
    (hall : ∀ x ∈ s, allowedStatus x.status)
    (hst : st = none ∨ ∃ v, st = some v ∧ allowedStatus v) :
    ∀ x ∈ s', allowedStatus x.status := by
  obtain ⟨b, b1, hfound, hresched, hb2, hs'⟩ :=
    update_ok_inv dur s conf adt rsn st now b2 s' h
  subst hs'
  intro x hx
  rcases mem_setFirst s conf b2 x hx with hxs | hxb
  · exact hall x hxs
  · subst hxb
    rcases hst with rfl | ⟨v, rfl, hv⟩
    · rw [hb2, applyFields_status_none, reschedStep_status dur s conf b b1 adt hresched]
      exact hall b (get_booking_mem s conf b hfound)
    · rw [hb2, applyFields_status_some]
      exact hv

/-! ### Slot enumeration bounds -/

theorem slotsLoop_mem (dur : Nat) (s : Store) (y m d : Nat) :
    ∀ fuel cur endMin l, slotsLoop dur s y m d fuel cur endMin = .ok l →
      ∀ x ∈ l, ∃ c, cur ≤ c ∧ c + dur ≤ endMin ∧ x = renderHM c := by
  intro fuel
  induction fuel with
  | zero =>
    intro cur endMin l h x hx
    cases h
    cases hx
  | succ fuel ih =>
    intro cur endMin l h x hx
    simp only [slotsLoop] at h
    by_cases hguard : cur + dur ≤ endMin
    · rw [if_pos hguard] at h
      cases hA : is_slot_available dur s (renderYMDHM y m d cur) none with
      | error e =>
        rw [hA] at h
        cases h
      | ok avail =>
        rw [hA] at h
        cases hR : slotsLoop dur s y m d fuel (cur + dur) endMin with
        | error e =>
          rw [hR] at h
          cases h
        | ok rest =>
          rw [hR] at h
          cases h
          cases avail with
          | true =>
            rw [if_pos rfl] at hx
            rcases List.mem_cons.mp hx with rfl | hxr
            · exact ⟨cur, Nat.le_refl _, hguard, rfl⟩
            · obtain ⟨c, hc1, hc2, hc3⟩ := ih (cur + dur) endMin rest hR x hxr
              exact ⟨c, by omega, hc2, hc3⟩
          | false =>
            rw [if_neg (by simp)] at hx
            obtain ⟨c, hc1, hc2, hc3⟩ := ih (cur + dur) endMin rest hR x hx
            exact ⟨c, by omega, hc2, hc3⟩
    · rw [if_neg hguard] at h
      cases h
      cases hx

theorem gasCore_mem (dur : Nat) (s : Store) (date : String) (y m d os oe : Nat)
    (ws we : String) (hdate : parseDate date = some (y, m, d))
    (hws : parseHM ws = some os) (hwe : parseHM we = some oe) (l : List String)
    (h : gasCore dur s date y m d ws we = .ok l) :
    ∀ x ∈ l, ∃ c, os ≤ c ∧ c + dur ≤ oe ∧ x = renderHM c := by
  unfold gasCore at h
  rw [parseDT_date_hm date ws y m d os hdate hws,
    parseDT_date_hm date we y m d oe hdate hwe] at h
  change slotsLoop dur s y m d (oe / 60 * 60 + oe % 60 + 1) (os / 60 * 60 + os % 60)
    (oe / 60 * 60 + oe % 60) = .ok l at h
  rw [show os / 60 * 60 + os % 60 = os from by omega,
    show oe / 60 * 60 + oe % 60 = oe from by omega] at h
  exact slotsLoop_mem dur s y m d (oe + 1) os oe l h

theorem gas_closed (dur : Nat) (s : Store) (date : String) (y m d : Nat)
    (st et : String) (hpd : parseDate date = some (y, m, d))
    (hc : office_hours (dayName (weekdayYMD y m d)) = none) :
    get_available_slots dur s date st et = .ok [] := by
  simp only [get_available_slots, hpd, hc]

theorem gas_open_eq (dur : Nat) (s : Store) (date : String) (y m d : Nat)
    (ws we st et : String) (hpd : parseDate date = some (y, m, d))
    (hoh : office_hours (dayName (weekdayYMD y m d)) = some (ws, we)) :
    get_available_slots dur s date st et =
      (if st = "09:00" ∧ et = "17:00" then gasCore dur s date y m d ws we
       else gasCore dur s date y m d st et) := by
  simp only [get_available_slots, hpd, hoh]

theorem officeBounds_inv (day : String) (os oe : Nat)
    (h : officeBounds day = some (os, oe)) :
    ∃ ws we, office_hours day = some (ws, we) ∧ parseHM ws = some os ∧
      parseHM we = some oe := by
  unfold officeBounds at h
  cases hoh : office_hours day with
  | none =>
    rw [hoh] at h
    cases h
  | some p =>
    obtain ⟨ws, we⟩ := p
    rw [hoh] at h
    change (match parseHM ws, parseHM we with
      | some a, some c => some (a, c)
      | _, _ => none) = some (os, oe) at h
    cases hws : parseHM ws with
    | none =>
      rw [hws] at h
      cases h
    | some a =>
      rw [hws] at h
      cases hwe : parseHM we with
      | none =>
        rw [hwe] at h
        cases h
      | some c =>
        rw [hwe] at h
        cases h
        exact ⟨ws, we, rfl, hws, hwe⟩

theorem get_booking_append_fresh (s : Store) (conf : String) (b : Booking)
    (hfresh : ∀ x ∈ s, x.confirmation_number ≠ conf)
    (hconf : b.confirmation_number = conf) :
    get_booking (s ++ [b]) conf = some b := by
  induction s with
  | nil => simp [get_booking, List.find?_cons, hconf]
  | cons a t ih =>
    show get_booking (a :: (t ++ [b])) conf = some b
    simp only [get_booking, List.find?_cons]
    rw [decide_eq_false (hfresh a (List.mem_cons_self _ _))]
    exact ih fun x hx => hfresh x (List.mem_cons_of_mem a hx)

theorem setFirst_append_fresh (s : Store) (conf : String) (b b' : Booking)
    (hfresh : ∀ x ∈ s, x.confirmation_number ≠ conf)
    (hconf : b.confirmation_number = conf) :
    setFirst (s ++ [b]) conf b' = s ++ [b'] := by
  induction s with
  | nil =>
    show setFirst [b] conf b' = [b']
    unfold setFirst
    rw [if_pos hconf]
  | cons a t ih =>
    show setFirst (a :: (t ++ [b])) conf b' = a :: (t ++ [b'])
    unfold setFirst
    rw [if_neg (hfresh a (List.mem_cons_self _ _))]
    rw [ih fun x hx => hfresh x (List.mem_cons_of_mem a hx)]

theorem blocksSlot_cancelled (dur : Nat) (dt : DateTime) (ex : Option String)
    (b : Booking) (h : b.status = "cancelled") : blocksSlot dur dt ex b = false := by
  unfold blocksSlot
  rw [if_pos h]

theorem cancel_inv (dur : Nat) (s : Store) (conf now : String) (r : Bool)
    (s' : Store) (h : cancel_booking dur s conf now = .ok (r, s')) :
    (r = false ∧ s' = s) ∨
      ∃ b2, update_booking dur s conf none none (some "cancelled") now =
        .ok (some (b2, s')) := by
  unfold cancel_booking at h
  cases hupd : update_booking dur s conf none none (some "cancelled") now with
  | error e =>
    rw [hupd] at h
    cases h
  | ok o =>
    rw [hupd] at h
    cases o with
    | none =>
      cases h
      exact Or.inl ⟨rfl, rfl⟩
    | some p =>
      obtain ⟨b2, s2⟩ := p
      cases h
      exact Or.inr ⟨b2, rfl⟩

/-! ### Concrete sample stores (obtained by running the operations) -/

def bJohn : Booking :=
  { id := 1, confirmation_number := "APT202512230001", patient_name := "John",
    phone := "555", email := none, appointment_datetime := "2025-12-23 10:00",
    datetime_iso := "2025-12-23T10:00:00", reason := none, status := "confirmed",
    created_at := "T0", updated_at := "T0" }

def bJohnCancelled : Booking := { bJohn with status := "cancelled", updated_at := "T1" }

def bMary : Booking :=
  { id := 2, confirmation_number := "APT202512230002", patient_name := "Mary",
    phone := "666", email := none, appointment_datetime := "2025-12-23 10:00",
    datetime_iso := "2025-12-23T10:00:00", reason := none, status := "confirmed",
    created_at := "T2", updated_at := "T2" }

def bJohnReactivated : Booking := { bJohn with status := "confirmed", updated_at := "T3" }

def store1 : Store := [bJohn]
def store2 : Store := [bJohnCancelled]
def store3 : Store := [bJohnCancelled, bMary]
def store4 : Store := [bJohnReactivated, bMary]

/-! ### Claims -/

/-- C1, counterexample: the overlap-freedom invariant is not preserved by
every operation.  After create / cancel / create-at-the-same-slot,
`update_booking` with `status="confirmed"` reactivates the cancelled record
without an availability check, reaching a store with two confirmed records at
the same `2025-12-23 10:00` slot. -/
theorem c1_counterexample : Reachable 30 store4 ∧ ¬ NoOverlap 30 store4 := by
  constructor
  · exact Reachable.step
      (Reachable.step
        (Reachable.step
          (Reachable.step Reachable.nil
            (Step.create "John" "555" none (some "2025-12-23 10:00") none
              "confirmed" "T0" bJohn store1 rfl))
          (Step.update "APT202512230001" none none (some "cancelled") "T1"
            bJohnCancelled store2 rfl))
        (Step.create "Mary" "666" none (some "2025-12-23 10:00") none
          "confirmed" "T2" bMary store3 rfl))
      (Step.update "APT202512230001" none none (some "confirmed") "T3"
        bJohnReactivated store4 rfl)
  · intro hno
    rcases hno with _ | ⟨hrel, -⟩
    have hc := hrel bMary (List.mem_singleton.mpr rfl)
    have := hc (by decide) (by decide) ⟨2025, 12, 23, 10, 0, 0⟩
      ⟨2025, 12, 23, 10, 0, 0⟩ rfl rfl
    exact this (by decide)

/-- C1, amended: every reachable store whose updates never turn a cancelled
record's status back to a non-cancelled value without rescheduling it in the
same call (`SafeUpdate`) has pairwise non-overlapping non-cancelled
`[datetime_iso, datetime_iso + duration)` intervals; `create_booking`,
`cancel_booking` and such safe `update_booking` calls all preserve the
invariant. -/
theorem c1_amended (dur : Nat) (s : Store) (h : ReachableG dur s) :
    NoOverlap dur s :=
  reachableG_noOverlap dur s h

/-- Witness for C1's amended theorem at a concrete reachable store. -/
theorem c1_amended_witness : NoOverlap 30 store1 :=
  c1_amended 30 store1
    (ReachableG.step ReachableG.nil
      (GoodStep.create "John" "555" none (some "2025-12-23 10:00") none
        "confirmed" "T0" bJohn store1 rfl))

/-- C2, counterexample: the office-hours check is close-exclusive on the
start time only.  On Tuesday 2025-12-23 (hours 09:00-17:00, i.e. minutes
540-1020), a start at 16:45 whose 30-minute interval runs to 17:15 — past
closing — is still reported available on an empty store, although the claim
requires any start whose interval does not fit strictly before closing to be
rejected. -/
theorem c2_counterexample :
    is_slot_available 30 [] "2025-12-23 16:45" none = .ok true ∧
      officeBounds (dayName (weekdayYMD 2025 12 23)) = some (540, 1020) ∧
      (16 * 60 + 45) + 30 > 1020 :=
  ⟨rfl, rfl, by decide⟩

/-- C2, amended: for a parsed datetime, `is_slot_available` returns false
when the weekday is closed, when the start time is before opening, or when
the start time is at or after closing (open inclusive, close exclusive on
the start time only — `start + duration` may exceed closing); a start inside
those bounds with no blocking record is reported available. -/
theorem c2_amended (dur : Nat) (s : Store) (ads : String) (dt : DateTime)
    (hp : parseDT ads = some dt) :
    (officeBounds (dayName dt.weekday) = none →
      is_slot_available dur s ads none = .ok false) ∧
    (∀ os oe, officeBounds (dayName dt.weekday) = some (os, oe) →
      dt.timeOfDaySec < os * 60 → is_slot_available dur s ads none = .ok false) ∧
    (∀ os oe, officeBounds (dayName dt.weekday) = some (os, oe) →
      oe * 60 ≤ dt.timeOfDaySec → is_slot_available dur s ads none = .ok false) ∧
    (∀ os oe, officeBounds (dayName dt.weekday) = some (os, oe) →
      os * 60 ≤ dt.timeOfDaySec → dt.timeOfDaySec < oe * 60 →
      (∀ b ∈ s, blocksSlot dur dt none b = false) →
      is_slot_available dur s ads none = .ok true) := by
  have hw : is_slot_available dur s ads none = .ok (availCore dur s dt none) := by
    simp only [is_slot_available, hp]
  refine ⟨?_, ?_, ?_, ?_⟩
  · intro hc
    rw [hw, availCore_eq_false_of_closed dur s dt none hc]
  · intro os oe hb ht
    rw [hw, availCore_eq_false_of_early dur s dt none os oe hb ht]
  · intro os oe hb ht
    rw [hw, availCore_eq_false_of_late dur s dt none os oe hb ht]
  · intro os oe hb h1 h2 hall
    rw [hw, availCore_eq_true dur s dt none os oe hb h1 h2 hall]

/-- Witness for C2's amended theorem: 17:30 on an open Tuesday is rejected
(start at/after closing) and 09:00 on an empty store is admitted (start
exactly at opening). -/
theorem c2_amended_witness :
    is_slot_available 30 [] "2025-12-23 17:30" none = .ok false ∧
      is_slot_available 30 [] "2025-12-23 09:00" none = .ok true := by
  constructor
  · exact (c2_amended 30 [] "2025-12-23 17:30" ⟨2025, 12, 23, 17, 30, 0⟩
      rfl).2.2.1 540 1020 rfl (by decide)
  · exact (c2_amended 30 [] "2025-12-23 09:00" ⟨2025, 12, 23, 9, 0, 0⟩
      rfl).2.2.2 540 1020 rfl (by decide) (by decide) (by intro b hb; cases hb)

/-- C5: in every reachable store the stored confirmation numbers are pairwise
distinct, and every further operation preserves all existing confirmation
numbers in place, only ever appending new ones — so confirmation numbers are
never reused across the lifetime of the store. -/
theorem c5_conf_unique (dur : Nat) (s : Store) (h : Reachable dur s) :
    DistinctConfs s ∧
      ∀ s', Step dur s s' →
        ∃ t, s'.map (fun b => b.confirmation_number) =
          s.map (fun b => b.confirmation_number) ++ t :=
  ⟨reachable_distinct dur s h, fun s' hstep => step_conf_extend dur s s' hstep⟩

/-- Witness for C5 at a concrete reachable two-record store. -/
theorem c5_conf_unique_witness : DistinctConfs store3 :=
  (c5_conf_unique 30 store3
    (Reachable.step
      (Reachable.step
        (Reachable.step Reachable.nil
          (Step.create "John" "555" none (some "2025-12-23 10:00") none
            "confirmed" "T0" bJohn store1 rfl))
        (Step.update "APT202512230001" none none (some "cancelled") "T1"
          bJohnCancelled store2 rfl))
      (Step.create "Mary" "666" none (some "2025-12-23 10:00") none
        "confirmed" "T2" bMary store3 rfl))).1

def bJohnStale : Booking := { bJohnCancelled with updated_at := "T9" }

/-- C3, counterexample: a conflicting reschedule target that happens to equal
the booking's stored display string verbatim skips the availability check
entirely.  In `store3` (John cancelled at 10:00, Mary confirmed at 10:00),
`"2025-12-23 10:00"` is unavailable for John's record (Mary blocks it), yet
`update_booking` with that target succeeds and changes the store
(`updated_at` is refreshed and persisted) instead of failing with an
availability error. -/
theorem c3_counterexample :
    is_slot_available 30 store3 "2025-12-23 10:00" (some "APT202512230001") =
      .ok false ∧
    update_booking 30 store3 "APT202512230001" (some "2025-12-23 10:00")
      none none "T9" = .ok (some (bJohnStale, [bJohnStale, bMary])) ∧
    [bJohnStale, bMary] ≠ store3 :=
  ⟨rfl, rfl, by decide⟩

/-- C3, amended: for a conflicting target datetime that differs from the
stored display string, `update_booking` fails with the availability error
(raised before any field is written, so the store is untouched); and a
successful genuine reschedule preserves the non-overlap invariant. -/
theorem c3_amended :
    (∀ dur (s : Store) conf b ads (rsn st : Option String) now dt,
      get_booking s conf = some b → ads ≠ "" → ads ≠ b.appointment_datetime →
      parseDT ads = some dt → availCore dur s dt (some conf) = false →
      update_booking dur s conf (some ads) rsn st now = .error .notAvailable) ∧
    (∀ dur (s : Store) conf b ads (rsn st : Option String) now b2 s',
      DistinctConfs s → NoOverlap dur s → get_booking s conf = some b →
      ads ≠ "" → ads ≠ b.appointment_datetime →
      update_booking dur s conf (some ads) rsn st now = .ok (some (b2, s')) →
      NoOverlap dur s') := by
  constructor
  · intro dur s conf b ads rsn st now dt hfound hne hdiff hp hav
    exact update_conflict_error dur s conf b ads now rsn st hfound hne hdiff dt hp hav
  · intro dur s conf b ads rsn st now b2 s' hdist hno hfound hne hdiff hupd
    apply update_noOverlap dur s conf (some ads) rsn st now b2 s' hupd hdist hno
    intro b' hb'
    rw [hfound] at hb'
    cases hb'
    exact Or.inr (Or.inr (Or.inr ⟨ads, rfl, hne, hdiff⟩))

def bJohn11 : Booking :=
  { bJohn with
      appointment_datetime := "2025-12-23 11:00"
      datetime_iso := "2025-12-23T11:00:00"
      updated_at := "T4" }

/-- Witness for C3's amended theorem: rescheduling John's cancelled record to
10:15 (blocked by Mary) fails with the availability error, and a successful
reschedule of `store1` to 11:00 leaves a non-overlapping store. -/
theorem c3_amended_witness :
    update_booking 30 store3 "APT202512230001" (some "2025-12-23 10:15")
      none none "T9" = .error .notAvailable ∧
    NoOverlap 30 [bJohn11] := by
  constructor
  · exact c3_amended.1 30 store3 "APT202512230001" bJohnCancelled
      "2025-12-23 10:15" none none "T9" ⟨2025, 12, 23, 10, 15, 0⟩ rfl
      (by decide) (by decide) rfl rfl
  · exact c3_amended.2 30 store1 "APT202512230001" bJohn "2025-12-23 11:00"
      none none "T4" bJohn11 [bJohn11] (by simp [DistinctConfs, store1])
      (by simp [NoOverlap, store1]) rfl (by decide) (by decide) rfl

def bJohnT5 : Booking := { bJohnCancelled with updated_at := "T5" }

/-- C4, counterexample: the second `cancel_booking` on the same confirmation
number returns true but is not a no-op — it refreshes `updated_at` (and
rewrites the store), so the store differs from its pre-call state whenever
the clock has moved. -/
theorem c4_counterexample :
    cancel_booking 30 store1 "APT202512230001" "T1" = .ok (true, store2) ∧
    cancel_booking 30 store2 "APT202512230001" "T5" = .ok (true, [bJohnT5]) ∧
    [bJohnT5] ≠ store2 :=
  ⟨rfl, rfl, by decide⟩

/-- C4, amended: cancelling a stored confirmation number twice returns true
both times without error; the first call sets the status to `"cancelled"`,
and the second changes nothing except refreshing `updated_at` to the second
call's clock value. -/
theorem c4_amended (dur : Nat) (s : Store) (conf now₁ now₂ : String)
    (b : Booking) (h : get_booking s conf = some b) :
    cancel_booking dur s conf now₁ =
      .ok (true, setFirst s conf { b with status := "cancelled", updated_at := now₁ }) ∧
    cancel_booking dur
        (setFirst s conf { b with status := "cancelled", updated_at := now₁ })
        conf now₂ =
      .ok (true,
        setFirst (setFirst s conf { b with status := "cancelled", updated_at := now₁ })
          conf { b with status := "cancelled", updated_at := now₂ }) := by
  have hconf := get_booking_conf s conf b h
  constructor
  · exact cancel_found_eq dur s conf now₁ b h
  · have hfound₂ : get_booking
        (setFirst s conf { b with status := "cancelled", updated_at := now₁ }) conf =
        some { b with status := "cancelled", updated_at := now₁ } :=
      get_booking_setFirst s conf b _ h hconf
    exact cancel_found_eq dur
      (setFirst s conf { b with status := "cancelled", updated_at := now₁ }) conf
      now₂ { b with status := "cancelled", updated_at := now₁ } hfound₂

/-- Witness for C4's amended theorem at the concrete one-record store. -/
theorem c4_amended_witness :
    cancel_booking 30 store1 "APT202512230001" "T1" =
      .ok (true, setFirst store1 "APT202512230001"
        { bJohn with status := "cancelled", updated_at := "T1" }) ∧
    cancel_booking 30
        (setFirst store1 "APT202512230001"
          { bJohn with status := "cancelled", updated_at := "T1" })
        "APT202512230001" "T5" =
      .ok (true,
        setFirst (setFirst store1 "APT202512230001"
            { bJohn with status := "cancelled", updated_at := "T1" })
          "APT202512230001" { bJohn with status := "cancelled", updated_at := "T5" }) :=
  c4_amended 30 store1 "APT202512230001" "T1" "T5" bJohn rfl

def bACancelled : Booking :=
  { id := 1, confirmation_number := "APT202512230001", patient_name := "A",
    phone := "1", email := none, appointment_datetime := "2025-12-23 10:00",
    datetime_iso := "2025-12-23T10:00:00", reason := none, status := "cancelled",
    created_at := "T0", updated_at := "T0" }

/-- C7, counterexample: `create_booking` accepts a caller-supplied
`status="cancelled"`; after such a successful creation the slot is still
reported available, contradicting the claim that availability is false
immediately after every successful creation. -/
theorem c7_counterexample :
    create_booking 30 [] "A" "1" none (some "2025-12-23 10:00") none
      "cancelled" "T0" = .ok (bACancelled, [bACancelled]) ∧
    is_slot_available 30 [bACancelled] "2025-12-23 10:00" none = .ok true :=
  ⟨rfl, rfl⟩

/-- C7, amended: after a successful creation with a non-cancelled status (and
a positive slot duration), the same instant is reported unavailable; after
cancelling that record (whose confirmation number is fresh), the instant is
reported available again, since no other non-cancelled record overlapped it
at creation time. -/
theorem c7_amended (dur : Nat) (s : Store) (pn ph : String)
    (em rsn : Option String) (ads st now : String) (b : Booking) (s' : Store)
    (hdur : 0 < dur) (hst : st ≠ "cancelled")
    (hfresh : ∀ x ∈ s, x.confirmation_number ≠ b.confirmation_number)
    (h : create_booking dur s pn ph em (some ads) rsn st now = .ok (b, s')) :
    is_slot_available dur s' ads none = .ok false ∧
    ∀ now₂, cancel_booking dur s' b.confirmation_number now₂ =
        .ok (true, s ++ [{ b with status := "cancelled", updated_at := now₂ }]) ∧
      is_slot_available dur
        (s ++ [{ b with status := "cancelled", updated_at := now₂ }]) ads none =
        .ok true := by
  obtain ⟨ads', dt, hadt, hne, hp, hav, hb, hs'⟩ :=
    create_ok_inv dur s pn ph em (some ads) rsn st now b s' h
  have hads : ads = ads' := Option.some.inj hadt
  subst hads
  subst hs'
  obtain ⟨os, oe, hob, h1, h2, hall⟩ := availCore_true_elim dur s dt none hav
  have hiso : parseDT b.datetime_iso = some dt := by
    rw [hb]
    exact parseDT_renderIso dt (parseDT_valid _ _ hp)
  have hbst : b.status ≠ "cancelled" := by
    rw [hb]
    exact hst
  constructor
  · have hw : is_slot_available dur (s ++ [b]) ads none =
        .ok (availCore dur (s ++ [b]) dt none) := by
      simp only [is_slot_available, hp]
    rw [hw, availCore_eq_false_of_blocks dur (s ++ [b]) dt none b (by simp)
      (blocksSlot_true_of_overlap dur dt none b dt hbst rfl hiso
        ⟨by omega, by omega⟩)]
  · intro now₂
    have hfound : get_booking (s ++ [b]) b.confirmation_number = some b :=
      get_booking_append_fresh s _ b hfresh rfl
    have hcan := cancel_found_eq dur (s ++ [b]) b.confirmation_number now₂ b hfound
    rw [setFirst_append_fresh s _ b _ hfresh rfl] at hcan
    refine ⟨hcan, ?_⟩
    have hw : is_slot_available dur
        (s ++ [{ b with status := "cancelled", updated_at := now₂ }]) ads none =
        .ok (availCore dur (s ++ [{ b with status := "cancelled", updated_at := now₂ }])
          dt none) := by
      simp only [is_slot_available, hp]
    rw [hw, availCore_eq_true dur _ dt none os oe hob h1 h2 ?hall2]
    case hall2 =>
      intro x hx
      rcases List.mem_append.mp hx with hxs | hxb
      · exact hall x hxs
      · rw [List.mem_singleton] at hxb
        subst hxb
        exact blocksSlot_cancelled dur dt none _ rfl

/-- Witness for C7's amended theorem on the one-record store. -/
theorem c7_amended_witness :
    is_slot_available 30 store1 "2025-12-23 10:00" none = .ok false ∧
    cancel_booking 30 store1 "APT202512230001" "T1" =
      .ok (true, [] ++ [{ bJohn with status := "cancelled", updated_at := "T1" }]) ∧
    is_slot_available 30
      ([] ++ [{ bJohn with status := "cancelled", updated_at := "T1" }])
      "2025-12-23 10:00" none = .ok true := by
  have h := c7_amended 30 [] "John" "555" none none "2025-12-23 10:00"
    "confirmed" "T0" bJohn store1 (by decide) (by decide)
    (by intro x hx; cases hx) rfl
  exact ⟨h.1, (h.2 "T1").1, (h.2 "T1").2⟩

/-- C6: with the default window, every time `get_available_slots` returns
lies within the weekday's configured office hours and its
`[start, start + duration)` interval fits before closing; a closed day
yields the empty list. -/
theorem c6_slots_within_hours (dur : Nat) (s : Store) (date : String) :
    (∀ y m d, parseDate date = some (y, m, d) →
      office_hours (dayName (weekdayYMD y m d)) = none →
      get_available_slots dur s date = .ok []) ∧
    (∀ y m d os oe l, parseDate date = some (y, m, d) →
      officeBounds (dayName (weekdayYMD y m d)) = some (os, oe) →
      get_available_slots dur s date = .ok l →
      ∀ x ∈ l, ((parseHM x).any fun c =>
        decide (os ≤ c) && decide (c + dur ≤ oe)) = true) := by
  constructor
  · intro y m d hpd hc
    exact gas_closed dur s date y m d "09:00" "17:00" hpd hc
  · intro y m d os oe l hpd hob hgas x hx
    obtain ⟨ws, we, hoh, hws, hwe⟩ := officeBounds_inv _ os oe hob
    rw [gas_open_eq dur s date y m d ws we "09:00" "17:00" hpd hoh,
      if_pos ⟨rfl, rfl⟩] at hgas
    obtain ⟨c, hc1, hc2, hc3⟩ :=
      gasCore_mem dur s date y m d os oe ws we hpd hws hwe l hgas x hx
    have hoele := parseHM_le we oe hwe
    have hc1440 : c < 1440 := by omega
    subst hc3
    rw [parseHM_renderHM c hc1440]
    simp [Option.any, hc1, hc2]

/-- Witness for C6 on Saturday 2025-12-27 (hours 09:00-13:00): the returned
slot "09:00" parses to minute 540, within bounds with its interval ending by
closing. -/
theorem c6_witness :
    ((parseHM "09:00").any fun c => decide (540 ≤ c) && decide (c + 30 ≤ 780)) =
      true :=
  (c6_slots_within_hours 30 [] "2025-12-27").2 2025 12 27 540 780
    ["09:00", "09:30", "10:00", "10:30", "11:00", "11:30", "12:00", "12:30"]
    rfl rfl rfl "09:00" (by decide)

/-- C8, counterexample: a malformed date string is not propagated as an error
by every operation — `get_available_slots` and `get_bookings_by_date`
silently map the parse failure to an empty list. -/
theorem c8_counterexample :
    parseDate "garbage" = none ∧
    get_available_slots 30 [] "garbage" = .ok [] ∧
    get_bookings_by_date store1 "garbage" = [] :=
  ⟨rfl, rfl, rfl⟩

/-- C8, amended: `create_booking`, `update_booking` (with a reschedule
target) and `is_slot_available` propagate the datetime parse failure to the
caller as an error, while `get_available_slots` and `get_bookings_by_date`
swallow a malformed date and return the empty list. -/
theorem c8_parse_error_propagation (dur : Nat) (s : Store) (ads : String)
    (hp : parseDT ads = none) (hne : ads ≠ "") :
    (∀ pn ph em rsn st now,
      create_booking dur s pn ph em (some ads) rsn st now = .error .parseError) ∧
    (∀ conf b rsn st now, get_booking s conf = some b →
      ads ≠ b.appointment_datetime →
      update_booking dur s conf (some ads) rsn st now = .error .parseError) ∧
    (∀ ex, is_slot_available dur s ads ex = .error .parseError) ∧
    (∀ date, parseDate date = none →
      get_available_slots dur s date = .ok [] ∧ get_bookings_by_date s date = []) := by
  refine ⟨?_, ?_, ?_, ?_⟩
  · intro pn ph em rsn st now
    exact create_parse_error dur s pn ph em rsn st now ads hne hp
  · intro conf b rsn st now hfound hdiff
    exact update_parse_error dur s conf b ads now rsn st hfound hne hdiff hp
  · intro ex
    exact is_slot_available_parse_error dur s ads ex hp
  · intro date hpd
    exact ⟨gas_malformed_date dur s date "09:00" "17:00" hpd,
      gbd_malformed_date s date hpd⟩

/-- Witness for C8's amended theorem at concrete malformed strings. -/
theorem c8_witness :
    create_booking 30 [] "A" "1" none (some "nope") none "confirmed" "T0" =
      .error .parseError ∧
    is_slot_available 30 [] "nope" none = .error .parseError ∧
    get_available_slots 30 [] "garbage" = .ok [] := by
  have h := c8_parse_error_propagation 30 [] "nope" rfl (by decide)
  exact ⟨h.1 "A" "1" none none "confirmed" "T0", h.2.2.1 none,
    (h.2.2.2 "garbage" rfl).1⟩

def bBanana : Booking :=
  { id := 1, confirmation_number := "APT202512230001", patient_name := "B",
    phone := "2", email := none, appointment_datetime := "2025-12-23 11:00",
    datetime_iso := "2025-12-23T11:00:00", reason := none, status := "banana",
    created_at := "T0", updated_at := "T0" }

/-- C9, counterexample: `create_booking` performs no status validation — a
caller-supplied status `"banana"`, outside
{`confirmed`, `pending`, `cancelled`}, is stored verbatim. -/
theorem c9_counterexample :
    create_booking 30 [] "B" "2" none (some "2025-12-23 11:00") none "banana"
      "T0" = .ok (bBanana, [bBanana]) ∧
    bBanana.status = "banana" ∧ ¬ allowedStatus "banana" :=
  ⟨rfl, rfl, by simp [allowedStatus]⟩

/-- C9, amended: the stored statuses stay within
{`confirmed`, `pending`, `cancelled`} provided the callers only pass status
values from that set; `create_booking`, `update_booking` and
`cancel_booking` (which passes `"cancelled"`) then preserve the property —
the functions themselves never validate it. -/
theorem c9_amended :
    (∀ dur (s : Store) pn ph em adt rsn st now b s',
      create_booking dur s pn ph em adt rsn st now = .ok (b, s') →
      (∀ x ∈ s, allowedStatus x.status) → allowedStatus st →
      ∀ x ∈ s', allowedStatus x.status) ∧
    (∀ dur (s : Store) conf adt rsn st now b2 s',
      update_booking dur s conf adt rsn st now = .ok (some (b2, s')) →
      (∀ x ∈ s, allowedStatus x.status) →
      (st = none ∨ ∃ v, st = some v ∧ allowedStatus v) →
      ∀ x ∈ s', allowedStatus x.status) ∧
    (∀ dur (s : Store) conf now r s',
      cancel_booking dur s conf now = .ok (r, s') →
      (∀ x ∈ s, allowedStatus x.status) →
      ∀ x ∈ s', allowedStatus x.status) := by
  refine ⟨?_, ?_, ?_⟩
  · intro dur s pn ph em adt rsn st now b s' h hall hst
    exact create_statuses dur s pn ph em adt rsn st now b s' h hall hst
  · intro dur s conf adt rsn st now b2 s' h hall hst
    exact update_statuses dur s conf adt rsn st now b2 s' h hall hst
  · intro dur s conf now r s' h hall
    rcases cancel_inv dur s conf now r s' h with ⟨-, rfl⟩ | ⟨b2, hupd⟩
    · exact hall
    · exact update_statuses dur s conf none none (some "cancelled") now b2 s'
        hupd hall (Or.inr ⟨"cancelled", rfl, Or.inr (Or.inr rfl)⟩)

/-- Witness for C9's amended theorem at a concrete creation. -/
theorem c9_witness : allowedStatus bJohn.status :=
  (c9_amended.1 30 [] "John" "555" none (some "2025-12-23 10:00") none
    "confirmed" "T0" bJohn store1 rfl (by intro x hx; cases hx) (Or.inl rfl))
    bJohn (List.mem_singleton.mpr rfl)

/-- C10: calling `get_available_slots` with the explicit window
`("09:00", "17:00")` is identical to calling it with no window arguments:
that exact pair is treated as "not overridden" and replaced by the weekday's
configured office hours (so Saturday 2025-12-27 enumerates 09:00-13:00 and
returns slots up to "12:30"), while any other caller-supplied window is
passed to the enumeration as given. -/
theorem c10_default_window_sentinel (dur : Nat) (s : Store) (date : String) :
    (get_available_slots dur s date "09:00" "17:00" =
      get_available_slots dur s date) ∧
    (∀ y m d ws we, parseDate date = some (y, m, d) →
      office_hours (dayName (weekdayYMD y m d)) = some (ws, we) →
      get_available_slots dur s date "09:00" "17:00" =
        gasCore dur s date y m d ws we) ∧
    (∀ y m d ws we st et, parseDate date = some (y, m, d) →
      office_hours (dayName (weekdayYMD y m d)) = some (ws, we) →
      ¬(st = "09:00" ∧ et = "17:00") →
      get_available_slots dur s date st et = gasCore dur s date y m d st et) ∧
    get_available_slots 30 [] "2025-12-27" "09:00" "17:00" =
      .ok ["09:00", "09:30", "10:00", "10:30", "11:00", "11:30", "12:00", "12:30"] := by
  refine ⟨rfl, ?_, ?_, rfl⟩
  · intro y m d ws we hpd hoh
    rw [gas_open_eq dur s date y m d ws we "09:00" "17:00" hpd hoh,
      if_pos ⟨rfl, rfl⟩]
  · intro y m d ws we st et hpd hoh hne
    rw [gas_open_eq dur s date y m d ws we st et hpd hoh, if_neg hne]

/-- Witness for C10 on Saturday 2025-12-27: the sentinel window pair is
replaced by the Saturday office hours 09:00-13:00. -/
theorem c10_witness :
    get_available_slots 30 [] "2025-12-27" "09:00" "17:00" =
      gasCore 30 [] "2025-12-27" 2025 12 27 "09:00" "13:00" :=
  (c10_default_window_sentinel 30 [] "2025-12-27").2.1 2025 12 27 "09:00"
    "13:00" rfl rfl

end BookingSpec
